import Mathlib

/-!
The service vanishling: a TTL-backed file store.

A shallow embedding of `file_service.go`, `deleter_service.go` and `config.go`.

* A Go `string` or `[]byte` is a list of bytes; each byte is held as a `Char`, so a
  statement over every `Str` covers every Go string.
* The filesystem is a table from path text to file content. Directories are not
  modelled (`os.MkdirAll` is a no-op), paths are compared as text, and whether a path
  may be created or removed is part of the state.
* Clock readings and the random UUID are explicit inputs of the operations.
* The Go libraries the code calls but does not define (`time` parsing and formatting,
  the keyed HighwayHash) are the fields of `GoLib`.
* `strings.Contains`, `strings.Split`, `filepath.Clean`, `filepath.Join`,
  `hex.EncodeToString` and `Time.Sub` are written out from their documented behaviour
  and checked on the examples of the Go documentation.
-/

namespace Vanishling

/-- Go strings and byte slices. -/
abbrev Str := List Char

/-! ## config.go -/

def defaultStoragePath : Str := "/tmp/vanishling/uploads".toList
def defaultLogPath : Str := "/tmp/vanishling/log".toList
def defaultLogFile : Str := "entries.log".toList
/-- The constant `time.Minute * 5`, in nanoseconds. -/
def defaultFileTTL : Int := 5 * (60 * 1000000000)
def defaultFileIdHeader : Str := "x-file-id".toList
def defaultTTLHeader : Str := "x-ttl".toList

/-! ## net/http status codes -/

def StatusOK : Nat := 200
def StatusBadRequest : Nat := 400
def StatusForbidden : Nat := 403

/-! ## Go standard library: strings -/

/-- Go `strings.HasPrefix s p`. -/
def startsWith : Str → Str → Bool
  | _, [] => true
  | [], _ :: _ => false
  | c :: cs, p :: ps => c == p && startsWith cs ps

/-- Go `strings.Contains s substr`. -/
def Contains : Str → Str → Bool
  | [], substr => substr.isEmpty
  | c :: cs, substr => startsWith (c :: cs) substr || Contains cs substr

/-- Go `strings.Split s sep` (and `strings.SplitN s sep (-1)`) for a one-byte separator. -/
def Split (s : Str) (sep : Char) : List Str :=
  match s with
  | [] => [[]]
  | c :: cs =>
    if c = sep then [] :: Split cs sep
    else
      match Split cs sep with
      | [] => [[c]]
      | h :: t => (c :: h) :: t

/-! ## Go standard library: path/filepath (Unix) -/

/-- One element of a path meets the elements kept so far: the rules of `filepath.Clean`.
Empty and `.` elements are dropped; `..` removes the last kept element when that one
is a real name, is dropped at the root of a rooted path, and is kept otherwise. -/
def cleanStep (rooted : Bool) (kept : List Str) (elem : Str) : List Str :=
  if elem = [] ∨ elem = ['.'] then kept
  else if elem = ['.', '.'] then
    match kept.getLast? with
    | none => if rooted then kept else kept ++ [elem]
    | some top => if top = ['.', '.'] then kept ++ [elem] else kept.dropLast
  else kept ++ [elem]

/-- The elements `filepath.Clean` keeps. -/
def cleanElems (rooted : Bool) (path : Str) : List Str :=
  (Split path '/').foldl (cleanStep rooted) []

/-- The text of a cleaned path. -/
def renderPath (rooted : Bool) (kept : List Str) : Str :=
  if rooted then '/' :: List.intercalate ['/'] kept
  else if kept = [] then ['.'] else List.intercalate ['/'] kept

/-- Go `filepath.Clean` on Unix. -/
def Clean (path : Str) : Str :=
  if path = [] then ['.']
  else
    let rooted := startsWith path ['/']
    renderPath rooted (cleanElems rooted path)

/-- Go `filepath.Join a b` on Unix. -/
def Join (a b : Str) : Str :=
  if a ≠ [] then Clean (a ++ '/' :: b)
  else if b ≠ [] then Clean b
  else []

/-! ## Go standard library: encoding/hex -/

/-- The table `hextable = "0123456789abcdef"`. -/
def hextable : Str := "0123456789abcdef".toList

def hexDigit (n : Nat) : Char := hextable.getD n '0'

/-- Go `hex.EncodeToString`. -/
def EncodeToString : List UInt8 → Str
  | [] => []
  | b :: bs => hexDigit (b.toNat / 16) :: hexDigit (b.toNat % 16) :: EncodeToString bs

/-! ## Go standard library: time -/

def minDuration : Int := -9223372036854775808
def maxDuration : Int := 9223372036854775807

/-- Go `t.Sub(u)` for instants in nanoseconds: the difference, held to the range of
`time.Duration` (a signed 64-bit count of nanoseconds). -/
def Sub (t u : Int) : Int :=
  if t - u < minDuration then minDuration
  else if maxDuration < t - u then maxDuration
  else t - u

/-- The library functions the service calls and does not define. Instants and durations
are counts of nanoseconds. -/
structure GoLib where
  /-- The keyed HighwayHash-256 (fixed key of `newFileUploaderSvc`) of the bytes written. -/
  highwayhash : Str → List UInt8
  /-- The digest of `highwayhash.New` has 32 bytes. -/
  highwayhash_size : ∀ d, (highwayhash d).length = 32
  /-- Go `Time.String()`. -/
  timeString : Int → Str
  /-- Go `Time.Format(time.UnixDate)`. -/
  formatUnixDate : Int → Str
  /-- The layout `time.UnixDate` writes neither a comma nor a line break. -/
  formatUnixDate_plain : ∀ t, ',' ∉ formatUnixDate t ∧ '\n' ∉ formatUnixDate t
  /-- Go `time.Parse(time.UnixDate, s)`; `none` is a parse error. -/
  parseUnixDate : Str → Option Int
  /-- Go `time.ParseDuration s`; `none` is a parse error. -/
  ParseDuration : Str → Option Int
  /-- Go `Duration.String()`. -/
  durationString : Int → Str
  /-- The text of a duration holds neither a comma nor a line break. -/
  durationString_plain : ∀ d, ',' ∉ durationString d ∧ '\n' ∉ durationString d

/-- The satori `uuid.UUID`: its bytes. -/
abbrev UUID := List UInt8

/-- The satori `UUID.String()`: five hex groups joined by dashes. -/
def UUID.String (u : UUID) : Str :=
  EncodeToString (u.take 4) ++ '-' :: (EncodeToString ((u.drop 4).take 2) ++ '-' ::
    (EncodeToString ((u.drop 6).take 2) ++ '-' :: (EncodeToString ((u.drop 8).take 2) ++
      '-' :: EncodeToString (u.drop 10))))

/-! ## The filesystem -/

inductive Err where
  | fileExists
  | permissionDenied
  | invalidFileName
  | zeroByteFile
  | failedToParseUnixDate
  | invalidTtl
  deriving DecidableEq, Repr

deriving instance DecidableEq for Except

structure FileSystem where
  /-- The content of the file at a path, `none` when there is no file. -/
  files : Str → Option Str
  /-- Whether a new file may be created at the path. -/
  creatable : Str → Bool
  /-- Whether the file at the path may be removed. -/
  removable : Str → Bool

/-- The file at `p` now holds `c`. -/
def FileSystem.put (fs : FileSystem) (p c : Str) : FileSystem :=
  { fs with files := fun q => if q = p then some c else fs.files q }

/-- No file at `p` any more. -/
def FileSystem.erase (fs : FileSystem) (p : Str) : FileSystem :=
  { fs with files := fun q => if q = p then none else fs.files q }

/-- Go `os.OpenFile(p, O_CREATE|O_EXCL|..)`: fails when the file exists. -/
def OpenFileExcl (fs : FileSystem) (p : Str) : Except Err FileSystem :=
  match fs.files p with
  | some _ => .error .fileExists
  | none => if fs.creatable p then .ok (fs.put p []) else .error .permissionDenied

/-- Go `os.OpenFile(p, O_CREATE|..)` without `O_EXCL`: creates the file when missing. -/
def OpenFileCreate (fs : FileSystem) (p : Str) : Except Err FileSystem :=
  match fs.files p with
  | some _ => .ok fs
  | none => if fs.creatable p then .ok (fs.put p []) else .error .permissionDenied

/-- Go `os.Remove p`: the filesystem after the call and whether it succeeded. -/
def Remove (fs : FileSystem) (p : Str) : FileSystem × Bool :=
  if (fs.files p).isSome && fs.removable p then (fs.erase p, true) else (fs, false)

/-! ## deleter_service.go -/

/-- The journal file `filepath.Join(defaultLogPath, defaultLogFile)`. -/
def lsfPath : Str := Join defaultLogPath defaultLogFile

/-- The result of one run of `logDeleteFunc`. -/
structure TickOut where
  fs : FileSystem
  /-- The returned error, `none` for `nil`. -/
  err : Option Err
  /-- The paths handed to `os.Remove`, in order. -/
  removes : List Str

/-- The loop `for _, e := range entries` of `logDeleteFunc`. Every `time.Now()` of the
tick reads `now`. -/
def scanEntries (L : GoLib) (now : Int) : List Str → FileSystem → TickOut
  | [], fs => ⟨fs, none, []⟩
  | e :: es, fs =>
    match Split e ',' with
    | [date, ttlText, fp] =>
      match fs.files fp with
      | none => scanEntries L now es fs
      | some _ =>
        match L.parseUnixDate date with
        | none => ⟨fs, some .failedToParseUnixDate, []⟩
        | some expirationDate =>
          match L.ParseDuration ttlText with
          | none => ⟨fs, some .invalidTtl, []⟩
          | some _ =>
            if Sub now expirationDate > 0 then
              let r := scanEntries L now es (Remove fs fp).1
              { r with removes := fp :: r.removes }
            else scanEntries L now es fs
    | _ => ⟨fs, none, []⟩

/-- The closure `logDeleteFunc` of `NewLogBasedTTLDeleterService`: one reconciler tick. -/
def logDeleteFunc (L : GoLib) (fs : FileSystem) (now : Int) : TickOut :=
  match OpenFileCreate fs lsfPath with
  | .error e => ⟨fs, some e, []⟩
  | .ok fs1 =>
    match fs1.files lsfPath with
    | none => ⟨fs1, none, []⟩
    | some byteEntries => scanEntries L now (Split byteEntries '\n') fs1

/-- The method `WriteLogEntry`, called at clock reading `now`; `time.Now().Add(ttl)` is
`now + ttl`, and the write to the opened journal succeeds. -/
def WriteLogEntry (L : GoLib) (fs : FileSystem) (now ttl : Int) (storagePath f : Str) :
    FileSystem × Option Err :=
  match OpenFileCreate fs lsfPath with
  | .error e => (fs, some e)
  | .ok fs1 =>
    let fsPath := Join storagePath f
    let expirationUnix := L.formatUnixDate (now + ttl)
    let le := expirationUnix ++ ',' :: (L.durationString ttl ++ ',' :: (fsPath ++ ['\n']))
    (fs1.put lsfPath ((fs1.files lsfPath).getD [] ++ le), none)

/-! ## file_service.go -/

/-- The `hash.Hash` held by the service: what has been written to it since
`highwayhash.New`. Nothing in the service calls `Reset`. -/
structure HashState where
  written : Str

/-- Go `h.Write b`. -/
def HashState.Write (h : HashState) (b : Str) : HashState := ⟨h.written ++ b⟩

/-- Go `h.Sum(nil)`: the digest of everything written so far; the state is kept. -/
def HashState.Sum (L : GoLib) (h : HashState) : List UInt8 := L.highwayhash h.written

structure fileUploader where
  p : Str
  lp : Str
  remoteAddr : Str
  fn : Str
  h : HashState
  Ttl : Int

/-- The state `newFileUploaderSvc` returns. -/
def newFileUploaderSvc : fileUploader :=
  { p := defaultStoragePath, lp := defaultLogPath, remoteAddr := [], fn := [],
    h := ⟨[]⟩, Ttl := 0 }

/-- The file of a multipart form: `handler.Filename` and the bytes; `handler.Size` is
their count. -/
structure FormFile where
  Filename : Str
  content : Str
  deriving DecidableEq

structure Request where
  /-- Go `r.Header.Get`: the empty string when the header is absent. -/
  Header : Str → Str
  RemoteAddr : Str
  /-- Whether `r.ParseMultipartForm` succeeds. -/
  multipartOk : Bool
  /-- Go `r.FormFile("file")`; `none` is its error. -/
  formFile : Option FormFile

structure Response where
  status : Nat
  header : List (Str × Str)
  body : Str

/-- The audit address: header `X-Real-IP`, else `r.RemoteAddr`. -/
def auditAddr (r : Request) : Str :=
  if (r.Header "X-Real-IP".toList).length = 0 then r.RemoteAddr
  else r.Header "X-Real-IP".toList

structure DownloadOut where
  f : fileUploader
  resp : Response
  /-- The paths handed to `ioutil.ReadFile`. -/
  reads : List Str

/-- The method `download`. -/
def download (f : fileUploader) (fs : FileSystem) (r : Request) : DownloadOut :=
  let f := { f with remoteAddr := auditAddr r }
  let fileHash := r.Header defaultFileIdHeader
  if fileHash.length = 0 then ⟨f, ⟨StatusBadRequest, [], []⟩, []⟩
  else if Contains fileHash ['.', '.'] || Contains fileHash ['/'] then
    ⟨f, ⟨StatusForbidden, [], []⟩, []⟩
  else
    let p := Join f.p fileHash
    match fs.files p with
    | none => ⟨f, ⟨StatusBadRequest, [], []⟩, [p]⟩
    | some fileBytes => ⟨f, ⟨StatusOK, [], fileBytes⟩, [p]⟩

/-- The method `setFileName`. -/
def setFileName (f : fileUploader) (fn : Str) (size : Nat) : fileUploader × Option Err :=
  if fn.length = 0 then (f, some .invalidFileName)
  else if Contains fn ['.', '.'] || Contains fn ['/'] then (f, some .invalidFileName)
  else if size = 0 then (f, some .zeroByteFile)
  else ({ f with fn := fn }, none)

/-- The method `ensureDirWritable`; `ns` is the fresh `uuid.NewV4()`. -/
def ensureDirWritable (f : fileUploader) (fs : FileSystem) (ns : UUID) :
    FileSystem × Option Err :=
  let p := Join f.p ns.String
  match OpenFileExcl fs p with
  | .error e => (fs, some e)
  | .ok fs1 => ((Remove fs1 p).1, none)

structure HashOut where
  f : fileUploader
  fs : FileSystem
  result : Except Err Str

/-- The method `hashFile`; `now` is the clock reading of the mixer and `uploadedFile` the
bytes of the multipart file. Reads of the multipart file and the write to the opened
destination succeed. -/
def hashFile (L : GoLib) (f : fileUploader) (fs : FileSystem) (ns : UUID) (now : Int)
    (uploadedFile : Str) : HashOut :=
  match ensureDirWritable f fs ns with
  | (fs1, some e) => ⟨f, fs1, .error e⟩
  | (fs1, none) =>
    let h1 := f.h.Write (L.timeString now)
    let h2 := h1.Write uploadedFile
    let f2 := { f with h := h2 }
    let checksum := EncodeToString (h2.Sum L)
    let p := Join f.p checksum
    match OpenFileExcl fs1 p with
    | .error e => ⟨f2, fs1, .error e⟩
    | .ok fs2 => ⟨f2, fs2.put p uploadedFile, .ok checksum⟩

/-- What one upload draws from outside: the probe UUID and two clock readings. -/
structure UploadEnv where
  ns : UUID
  hashTime : Int
  logTime : Int

structure UploadOut where
  f : fileUploader
  fs : FileSystem
  resp : Response

/-- The method `upload`. -/
def upload (L : GoLib) (f : fileUploader) (fs : FileSystem) (r : Request) (env : UploadEnv) :
    UploadOut :=
  let f := { f with remoteAddr := auditAddr r }
  if !r.multipartOk then ⟨f, fs, ⟨StatusBadRequest, [], []⟩⟩
  else
    match r.formFile with
    | none => ⟨f, fs, ⟨StatusBadRequest, [], []⟩⟩
    | some file =>
      match setFileName f file.Filename file.content.length with
      | (f, some _) => ⟨f, fs, ⟨StatusBadRequest, [], []⟩⟩
      | (f, none) =>
        match hashFile L f fs env.ns env.hashTime file.content with
        | ⟨f, fs, .error _⟩ => ⟨f, fs, ⟨StatusBadRequest, [], []⟩⟩
        | ⟨f, fs, .ok fileNameAsHashId⟩ =>
          let resp : Response := ⟨StatusOK, [(defaultFileIdHeader, fileNameAsHashId)], []⟩
          let uploadedFileTTL := r.Header defaultTTLHeader
          let ttl :=
            if uploadedFileTTL.length ≠ 0 then
              match L.ParseDuration uploadedFileTTL with
              | some d => d
              | none => defaultFileTTL
            else defaultFileTTL
          let f := { f with Ttl := ttl }
          ⟨f, (WriteLogEntry L fs env.logTime f.Ttl defaultStoragePath fileNameAsHashId).1, resp⟩

/-- The method `upload` up to the store of the ttl in the shared field
`f.ttlCleanerContext.Ttl` (file_service.go:132-188): the state and the response so far,
and the identifier whose journal entry is still to be written (`none` when the upload
was refused). -/
def uploadStore (L : GoLib) (f : fileUploader) (fs : FileSystem) (r : Request)
    (env : UploadEnv) : UploadOut × Option Str :=
  let f := { f with remoteAddr := auditAddr r }
  if !r.multipartOk then (⟨f, fs, ⟨StatusBadRequest, [], []⟩⟩, none)
  else
    match r.formFile with
    | none => (⟨f, fs, ⟨StatusBadRequest, [], []⟩⟩, none)
    | some file =>
      match setFileName f file.Filename file.content.length with
      | (f, some _) => (⟨f, fs, ⟨StatusBadRequest, [], []⟩⟩, none)
      | (f, none) =>
        match hashFile L f fs env.ns env.hashTime file.content with
        | ⟨f, fs, .error _⟩ => (⟨f, fs, ⟨StatusBadRequest, [], []⟩⟩, none)
        | ⟨f, fs, .ok fileNameAsHashId⟩ =>
          let resp : Response := ⟨StatusOK, [(defaultFileIdHeader, fileNameAsHashId)], []⟩
          let uploadedFileTTL := r.Header defaultTTLHeader
          let ttl :=
            if uploadedFileTTL.length ≠ 0 then
              match L.ParseDuration uploadedFileTTL with
              | some d => d
              | none => defaultFileTTL
            else defaultFileTTL
          (⟨{ f with Ttl := ttl }, fs, resp⟩, some fileNameAsHashId)

/-- The last statement of `upload` (file_service.go:191): `WriteLogEntry` is handed the
ttl it reads from the shared field `f.ttlCleanerContext.Ttl` at that moment. -/
def uploadJournal (L : GoLib) (f : fileUploader) (fs : FileSystem) (logTime : Int)
    (fileNameAsHashId : Str) : FileSystem :=
  (WriteLogEntry L fs logTime f.Ttl defaultStoragePath fileNameAsHashId).1

structure OverlapOut where
  f : fileUploader
  fs : FileSystem
  respA : Response
  respB : Response

/-- Two uploads A and B served by the one `fileUploader` at the same time: `ServeHTTP`
runs every `upload` in a goroutine of its own, and `upload` holds no lock once `hashFile`
has returned. The schedule: A runs to line 188, B runs to line 188, A runs line 191,
B runs line 191. -/
def overlappedUploads (L : GoLib) (f : fileUploader) (fs : FileSystem)
    (rA : Request) (envA : UploadEnv) (rB : Request) (envB : UploadEnv) : OverlapOut :=
  let a := uploadStore L f fs rA envA
  let b := uploadStore L a.1.f a.1.fs rB envB
  let fs1 :=
    match a.2 with
    | some idA => uploadJournal L b.1.f b.1.fs envA.logTime idA
    | none => b.1.fs
  let fs2 :=
    match b.2 with
    | some idB => uploadJournal L b.1.f fs1 envB.logTime idB
    | none => fs1
  ⟨b.1.f, fs2, a.1.resp, b.1.resp⟩

/-! ## The journal as the specification reads it -/

/-- The journal text whose lines are `recs`, each one ended by a line break. -/
def journalOf : List Str → Str
  | [] => []
  | e :: es => e ++ '\n' :: journalOf es

/-- A journal line read as a record: three comma-separated fields, the first a
parseable `UnixDate` expiration, the second a parseable duration, the third the path. -/
def parseRecord (L : GoLib) (e : Str) : Option (Int × Int × Str) :=
  match Split e ',' with
  | [date, ttlText, fp] =>
    match L.parseUnixDate date, L.ParseDuration ttlText with
    | some expiresAt, some ttl => some (expiresAt, ttl, fp)
    | _, _ => none
  | _ => none

/-- A well-formed journal line: no line break inside, and it reads as a record. -/
def wellFormed (L : GoLib) (e : Str) : Bool :=
  decide ('\n' ∉ e) && (parseRecord L e).isSome

/-- Some line of `recs` is a record that names the path `p` and expires strictly before
`now`. -/
def expiredNamed (L : GoLib) (now : Int) (recs : List Str) (p : Str) : Bool :=
  recs.any fun e =>
    match parseRecord L e with
    | some (expiresAt, _, fp) => decide (fp = p) && decide (expiresAt < now)
    | none => false

/-- Every byte of the text is neither a slash nor a dot. -/
def plainName (s : Str) : Bool := s.all fun c => c != '/' && c != '.'

/-- The effective ttl as the specification words it: the parsed `x-ttl` header when it is
non-empty and parses as a duration, the default ttl otherwise. -/
def effectiveTTL (L : GoLib) (header : Str) : Int :=
  match (if header = [] then none else L.ParseDuration header) with
  | some d => d
  | none => defaultFileTTL

/-- The text of a journal record as the specification words it: the expiration timestamp
of `t + ttl`, the ttl and the blob path, separated by commas. -/
def journalRecord (L : GoLib) (t ttl : Int) (path : Str) : Str :=
  L.formatUnixDate (t + ttl) ++ ',' :: (L.durationString ttl ++ ',' :: path)

/-- The identifier `hashFile` computes: the hex text of the digest of everything written
to the service's hash before, then the mixer, then the uploaded bytes. -/
def checksumOf (L : GoLib) (f : fileUploader) (now : Int) (uploadedFile : Str) : Str :=
  EncodeToString (L.highwayhash (f.h.written ++ L.timeString now ++ uploadedFile))

/-! ## Concrete runs

A stand-in library for the concrete runs below. Its time functions agree with Go's
`time` package (zone UTC) on the texts and instants used here, and fail, or return a
fixed text, elsewhere. Its hash is a toy: the digest records the length of the input. -/

/-- The instant 2001-01-01 00:00:00 UTC, in nanoseconds since the Unix epoch. -/
def t2001 : Int := 978307200000000000

def stubLib : GoLib where
  highwayhash d := UInt8.ofNat d.length :: List.replicate 31 0
  highwayhash_size _ := by simp
  timeString _ := "2001-01-01 00:00:00 +0000 UTC".toList
  formatUnixDate t :=
    if t = t2001 + 300000000000 then "Mon Jan  1 00:05:00 UTC 2001".toList
    else if t = t2001 + 1000000000 then "Mon Jan  1 00:00:01 UTC 2001".toList
    else "Thu Jan  1 00:00:00 UTC 1970".toList
  formatUnixDate_plain t := by
    show ',' ∉ ite _ _ _ ∧ '\n' ∉ ite _ _ _
    split_ifs <;> decide
  parseUnixDate s :=
    if s = "Mon Jan  1 00:00:00 UTC 2001".toList then some t2001
    else if s = "Mon Jan  1 00:05:00 UTC 2001".toList then some (t2001 + 300000000000)
    else none
  ParseDuration s :=
    if s = "5m0s".toList then some 300000000000
    else if s = "1s".toList then some 1000000000
    else none
  durationString d :=
    if d = 300000000000 then "5m0s".toList
    else if d = 1000000000 then "1s".toList
    else "0s".toList
  durationString_plain d := by
    show ',' ∉ ite _ _ _ ∧ '\n' ∉ ite _ _ _
    split_ifs <;> decide

/-- A filesystem holding exactly the listed files, with every path creatable and
removable. -/
def fsOf (table : List (Str × Str)) : FileSystem where
  files p := (table.find? fun kv => kv.1 == p).map Prod.snd
  creatable _ := true
  removable _ := true

/-- A blob path under the storage root. -/
def blobAb : Str := "/tmp/vanishling/uploads/ab".toList

/-- A well-formed record for `blobAb` expiring at `t2001`. -/
def recordAb : Str := "Mon Jan  1 00:00:00 UTC 2001,5m0s,/tmp/vanishling/uploads/ab".toList

/-- A well-formed record that names the journal file itself, expiring at `t2001`. -/
def recordJournal : Str :=
  "Mon Jan  1 00:00:00 UTC 2001,5m0s,/tmp/vanishling/log/entries.log".toList

/-- A line with a single field. -/
def lineGarbage : Str := "garbage".toList

/-- A request carrying the given `x-file-id` and `x-ttl` headers and the given file. -/
def requestOf (fileId ttl : Str) (file : Option FormFile) : Request where
  Header k :=
    if k = defaultFileIdHeader then fileId else if k = defaultTTLHeader then ttl else []
  RemoteAddr := "10.0.0.1:4000".toList
  multipartOk := true
  formFile := file

/-- An upload of the three bytes `abc` under the name `a.txt`. -/
def fileAbc : FormFile := ⟨"a.txt".toList, "abc".toList⟩

/-- The inputs an upload draws: an all-zero UUID, hashing at `t2001`, logging at `t2001`. -/
def envZero : UploadEnv := ⟨List.replicate 16 0, t2001, t2001⟩

/-- The inputs a second upload draws: another UUID, the same clock readings. -/
def envOne : UploadEnv := ⟨List.replicate 16 1, t2001, t2001⟩

/-- Upload A: the file `fileAbc` with header `x-ttl: 1s`. -/
def requestA : Request := requestOf [] "1s".toList (some fileAbc)

/-- Upload B: the file `fileAbc` with no `x-ttl` header. -/
def requestB : Request := requestOf [] [] (some fileAbc)

/-- The identifier `stubLib` gives a second upload of `fileAbc` to the same service. -/
def idAbc2 : Str := "4000000000000000000000000000000000000000000000000000000000000000".toList

/-- The identifier `stubLib` gives the first upload of `fileAbc`. -/
def idAbc : Str := "2000000000000000000000000000000000000000000000000000000000000000".toList

/-- The journal holds one record, which names the journal file itself. -/
def fsJournalSelf : FileSystem := fsOf [(lsfPath, journalOf [recordJournal])]

/-- The blob `blobAb` and a journal holding its record. -/
def fsAb : FileSystem := fsOf [(lsfPath, journalOf [recordAb]), (blobAb, "x".toList)]

/-- The blob `blobAb` and a journal holding a one-field line, then the blob's record. -/
def fsGarbage : FileSystem :=
  fsOf [(lsfPath, journalOf [lineGarbage, recordAb]), (blobAb, "x".toList)]

/-- A file already sits where the first upload of `fileAbc` would be stored. -/
def fsCollision : FileSystem := fsOf [(defaultStoragePath ++ '/' :: idAbc, "old".toList)]

/-! ## The library models on the examples of the Go documentation -/

theorem Clean_examples :
    Clean "abc//def//ghi".toList = "abc/def/ghi".toList ∧
    Clean "a/b/../../../c".toList = "../c".toList ∧
    Clean "/../a/b/../././/c".toList = "/a/c".toList ∧
    Clean "abc/../../././../def".toList = "../../def".toList ∧
    Clean "/abc/def/../../..".toList = "/".toList ∧
    Clean "abc/".toList = "abc".toList ∧
    Clean "".toList = ".".toList ∧
    Clean "//".toList = "/".toList := by
  decide

theorem Join_examples :
    Join "a".toList "b/c".toList = "a/b/c".toList ∧
    Join "a/b".toList "../../../xyz".toList = "../xyz".toList ∧
    Join "".toList "b".toList = "b".toList ∧
    Join "/tmp/vanishling/uploads".toList "../../../etc/passwd".toList = "/etc/passwd".toList ∧
    lsfPath = "/tmp/vanishling/log/entries.log".toList := by
  decide

theorem Split_examples :
    Split "a,b,c".toList ',' = ["a".toList, "b".toList, "c".toList] ∧
    Split "".toList ',' = [[]] ∧
    Split "x\ny\n".toList '\n' = ["x".toList, "y".toList, []] ∧
    Split ",".toList ',' = [[], []] := by
  decide

theorem Contains_examples :
    Contains "seafood".toList "foo".toList = true ∧
    Contains "seafood".toList "bar".toList = false ∧
    Contains "seafood".toList [] = true ∧
    Contains [] [] = true ∧
    Contains "a.b.c".toList "..".toList = false ∧
    Contains "../../etc/passwd".toList "..".toList = true := by
  decide

theorem EncodeToString_examples :
    EncodeToString [0, 1, 171, 255] = "0001abff".toList ∧
    UUID.String (List.replicate 16 171) = "abababab-abab-abab-abab-abababababab".toList := by
  decide

theorem Sub_examples :
    Sub 5 3 = 2 ∧ Sub 3 5 = -2 ∧
    Sub (10 ^ 19) 0 = 9223372036854775807 ∧ Sub 0 (10 ^ 19) = -9223372036854775808 := by
  decide

/-! ## Lemmas on the library models -/

theorem Sub_pos_iff (t u : Int) : 0 < Sub t u ↔ u < t := by
  unfold Sub minDuration maxDuration
  split_ifs <;> omega

theorem Split_ne_nil (s : Str) (sep : Char) : Split s sep ≠ [] := by
  cases s with
  | nil => simp [Split]
  | cons c cs =>
    unfold Split
    split_ifs
    · simp
    · split <;> simp

theorem Split_of_not_mem (sep : Char) : ∀ s : Str, sep ∉ s → Split s sep = [s]
  | [], _ => by simp [Split]
  | c :: cs, h => by
    have hc : c ≠ sep := fun e => h (by simp [e])
    have hcs : sep ∉ cs := fun m => h (List.mem_cons_of_mem _ m)
    simp [Split, hc, Split_of_not_mem sep cs hcs]

theorem Split_cons_ne (sep c : Char) (cs : Str) (hc : c ≠ sep) :
    Split (c :: cs) sep = (c :: (Split cs sep).headD []) :: (Split cs sep).tail := by
  rw [Split]
  simp only [hc, if_false]
  cases hs : Split cs sep with
  | nil => exact absurd hs (Split_ne_nil _ _)
  | cons h t => simp

theorem Split_cons_eq (sep : Char) (cs : Str) :
    Split (sep :: cs) sep = [] :: Split cs sep := by
  rw [Split]; simp

theorem Split_append_sep (sep : Char) (b : Str) :
    ∀ a : Str, Split (a ++ sep :: b) sep = Split a sep ++ Split b sep
  | [] => by simp [Split_cons_eq, Split]
  | c :: cs => by
    have ih := Split_append_sep sep b cs
    by_cases hc : c = sep
    · subst hc
      simp [Split_cons_eq, ih]
    · rw [List.cons_append, Split_cons_ne sep c _ hc, Split_cons_ne sep c _ hc, ih]
      cases hs : Split cs sep with
      | nil => exact absurd hs (Split_ne_nil _ _)
      | cons h t => simp

theorem Split_journalOf (recs : List Str) (h : ∀ e ∈ recs, '\n' ∉ e) :
    Split (journalOf recs) '\n' = recs ++ [[]] := by
  induction recs with
  | nil => simp [journalOf, Split]
  | cons e es ih =>
    have he : '\n' ∉ e := h e (by simp)
    have hes : ∀ x ∈ es, '\n' ∉ x := fun x hx => h x (List.mem_cons_of_mem _ hx)
    rw [journalOf, Split_append_sep, Split_of_not_mem _ _ he, ih hes]
    simp

theorem wellFormed_iff (L : GoLib) (e : Str) :
    wellFormed L e = true ↔ '\n' ∉ e ∧ ∃ r, parseRecord L e = some r := by
  simp [wellFormed, Option.isSome_iff_exists]

/-- The loop body on a line that reads as a record. -/
theorem scanEntries_cons_record (L : GoLib) (now : Int) (e : Str) (es : List Str)
    (fs : FileSystem) (expiresAt ttl : Int) (fp : Str)
    (h : parseRecord L e = some (expiresAt, ttl, fp)) :
    scanEntries L now (e :: es) fs =
      if (fs.files fp).isSome ∧ expiresAt < now then
        { scanEntries L now es (Remove fs fp).1 with
          removes := fp :: (scanEntries L now es (Remove fs fp).1).removes }
      else scanEntries L now es fs := by
  unfold parseRecord at h
  rw [scanEntries]
  split at h
  · rename_i date ttlText fp2 hsp
    split at h
    · rename_i ex tt hd ht
      simp only [Option.some.injEq, Prod.mk.injEq] at h
      obtain ⟨rfl, rfl, rfl⟩ := h
      cases hf : fs.files fp2 with
      | none => simp
      | some c =>
        simp only [hd, ht, Sub_pos_iff, gt_iff_lt, Option.isSome_some, true_and]
    · exact absurd h (by simp)
  · exact absurd h (by simp)

/-- The loop stops without error on the empty last line of the journal. -/
theorem scanEntries_empty_line (L : GoLib) (now : Int) (es : List Str) (fs : FileSystem) :
    scanEntries L now ([] :: es) fs = ⟨fs, none, []⟩ := by
  rw [scanEntries]; simp [Split]

theorem expiredNamed_cons (L : GoLib) (now : Int) (e : Str) (es : List Str) (p : Str)
    (expiresAt ttl : Int) (fp : Str) (h : parseRecord L e = some (expiresAt, ttl, fp)) :
    expiredNamed L now (e :: es) p =
      ((decide (fp = p) && decide (expiresAt < now)) || expiredNamed L now es p) := by
  simp [expiredNamed, h]

theorem Remove_files (fs : FileSystem) (p q : Str) (hr : fs.removable p = true) :
    (Remove fs p).1.files q = if q = p then none else fs.files q := by
  unfold Remove
  cases hf : fs.files p with
  | none =>
    simp only [Option.isSome_none, Bool.false_and, Bool.false_eq_true, if_false]
    split_ifs with hq
    · rw [hq, hf]
    · rfl
  | some c => simp [hr, FileSystem.erase]

theorem Remove_perms (fs : FileSystem) (p : Str) :
    (Remove fs p).1.creatable = fs.creatable ∧ (Remove fs p).1.removable = fs.removable := by
  unfold Remove
  split_ifs <;> simp [FileSystem.erase]

theorem Remove_files_ne (fs : FileSystem) (p q : Str) (hq : q ≠ p) :
    (Remove fs p).1.files q = fs.files q := by
  unfold Remove
  split_ifs <;> simp [FileSystem.erase, hq]

/-- A scan of well-formed lines, with every removal succeeding: no error, and a path
holds no file afterwards when an expired record names it and its old file otherwise. -/
theorem scanEntries_wellFormed_fs (L : GoLib) (now : Int) (recs : List Str) :
    ∀ fs : FileSystem, (∀ e ∈ recs, wellFormed L e = true) → (∀ p, fs.removable p = true) →
      (scanEntries L now (recs ++ [[]]) fs).err = none ∧
      ∀ p, (scanEntries L now (recs ++ [[]]) fs).fs.files p =
        if expiredNamed L now recs p = true then none else fs.files p := by
  induction recs with
  | nil =>
    intro fs _ _
    simp [scanEntries_empty_line, expiredNamed]
  | cons e es ih =>
    intro fs hwf hrm
    obtain ⟨_, ⟨expiresAt, ttl, fp⟩, hrec⟩ := (wellFormed_iff L e).1 (hwf e (by simp))
    have hes : ∀ x ∈ es, wellFormed L x = true := fun x hx => hwf x (List.mem_cons_of_mem _ hx)
    rw [List.cons_append, scanEntries_cons_record L now e _ fs expiresAt ttl fp hrec]
    by_cases hc : (fs.files fp).isSome ∧ expiresAt < now
    · rw [if_pos hc]
      have hrm2 : ∀ p, (Remove fs fp).1.removable p = true := by
        intro p; rw [(Remove_perms fs fp).2]; exact hrm p
      obtain ⟨h1, h2⟩ := ih (Remove fs fp).1 hes hrm2
      refine ⟨h1, fun p => ?_⟩
      simp only [h2 p, expiredNamed_cons L now e es p expiresAt ttl fp hrec,
        Remove_files fs fp p (hrm fp)]
      by_cases hp : fp = p
      · subst hp; simp [hc.2]
      · have hp2 : p ≠ fp := fun h => hp h.symm
        simp [hp, hp2]
    · rw [if_neg hc]
      obtain ⟨h1, h2⟩ := ih fs hes hrm
      refine ⟨h1, fun p => ?_⟩
      simp only [h2 p, expiredNamed_cons L now e es p expiresAt ttl fp hrec]
      by_cases hp : fp = p
      · subst hp
        by_cases hx : expiresAt < now
        · have hn : fs.files fp = none := by
            cases hf : fs.files fp with
            | none => rfl
            | some c => exact absurd ⟨by simp [hf], hx⟩ hc
          simp [hn]
        · simp [hx]
      · simp [hp]

/-- A scan of well-formed lines hands a path to `os.Remove` exactly when a file was there
and an expired record names it. -/
theorem scanEntries_wellFormed_removes (L : GoLib) (now : Int) (recs : List Str) :
    ∀ fs : FileSystem, (∀ e ∈ recs, wellFormed L e = true) →
      ∀ p, p ∈ (scanEntries L now (recs ++ [[]]) fs).removes ↔
        (fs.files p).isSome = true ∧ expiredNamed L now recs p = true := by
  induction recs with
  | nil =>
    intro fs _ p
    simp [scanEntries_empty_line, expiredNamed]
  | cons e es ih =>
    intro fs hwf p
    obtain ⟨_, ⟨expiresAt, ttl, fp⟩, hrec⟩ := (wellFormed_iff L e).1 (hwf e (by simp))
    have hes : ∀ x ∈ es, wellFormed L x = true := fun x hx => hwf x (List.mem_cons_of_mem _ hx)
    rw [List.cons_append, scanEntries_cons_record L now e _ fs expiresAt ttl fp hrec,
      expiredNamed_cons L now e es p expiresAt ttl fp hrec]
    by_cases hc : (fs.files fp).isSome ∧ expiresAt < now
    · rw [if_pos hc]
      simp only [List.mem_cons, ih (Remove fs fp).1 hes p]
      by_cases hp : fp = p
      · subst hp; simp [hc.1, hc.2]
      · have hp2 : p ≠ fp := fun h => hp h.symm
        simp [hp, hp2, Remove_files_ne fs fp p hp2]
    · rw [if_neg hc, ih fs hes p]
      by_cases hp : fp = p
      · subst hp
        by_cases hx : expiresAt < now
        · have hn : (fs.files fp).isSome = false := by
            cases hf : (fs.files fp).isSome with
            | false => rfl
            | true => exact absurd ⟨hf, hx⟩ hc
          simp [hn]
        · simp [hx]
      · simp [hp]

theorem startsWith_append (a b : Str) (c : Char) (ha : a ≠ []) :
    startsWith (a ++ b) [c] = startsWith a [c] := by
  cases a with
  | nil => exact absurd rfl ha
  | cons x xs => simp [startsWith]

theorem Contains_singleton (c : Char) : ∀ s : Str, Contains s [c] = true ↔ c ∈ s
  | [] => by simp [Contains]
  | x :: xs => by
    have ih := Contains_singleton c xs
    simp only [Contains, startsWith, Bool.and_true, Bool.or_eq_true, ih, List.mem_cons,
      beq_iff_eq]
    constructor
    · rintro (h | h)
      · exact Or.inl h.symm
      · exact Or.inr h
    · rintro (h | h)
      · exact Or.inl h.symm
      · exact Or.inr h

theorem Join_child (root id : Str) (hroot : root ≠ []) (hs : '/' ∉ id)
    (hdd : id ≠ ['.', '.']) :
    Join root id =
      if id = [] ∨ id = ['.'] then Clean root
      else renderPath (startsWith root ['/'])
        (cleanElems (startsWith root ['/']) root ++ [id]) := by
  have hne : root ++ '/' :: id ≠ [] := by simp
  unfold Join Clean
  simp only [ne_eq, hroot, not_false_eq_true, if_true, hne, if_false]
  rw [startsWith_append root _ '/' hroot]
  unfold cleanElems
  rw [Split_append_sep, Split_of_not_mem '/' id hs, List.foldl_append]
  simp only [List.foldl_cons, List.foldl_nil]
  by_cases h1 : id = [] ∨ id = ['.']
  · simp only [h1, cleanStep, if_true]
  · simp only [h1, cleanStep, hdd, if_false]

theorem Join_defaultStoragePath (id : Str) (hs : '/' ∉ id) (hdd : id ≠ ['.', '.']) :
    Join defaultStoragePath id =
      if id = [] ∨ id = ['.'] then defaultStoragePath else defaultStoragePath ++ '/' :: id := by
  have hroot : defaultStoragePath ≠ [] := by decide
  have hst : startsWith defaultStoragePath ['/'] = true := by decide
  have hel : cleanElems true defaultStoragePath =
      ["tmp".toList, "vanishling".toList, "uploads".toList] := by decide
  have hcl : Clean defaultStoragePath = defaultStoragePath := by decide
  rw [Join_child defaultStoragePath id hroot hs hdd, hst, hel, hcl]
  split_ifs
  · rfl
  · simp [renderPath, List.intercalate, List.intersperse, defaultStoragePath]

theorem Contains_head_mem (c : Char) (rest : Str) :
    ∀ s : Str, Contains s (c :: rest) = true → c ∈ s
  | [], h => by simp [Contains] at h
  | x :: xs, h => by
    simp only [Contains, startsWith, Bool.or_eq_true, Bool.and_eq_true, beq_iff_eq] at h
    rcases h with h | h
    · simp [h.1]
    · exact List.mem_cons_of_mem _ (Contains_head_mem c rest xs h)

theorem plainName_safe (s : Str) (h : plainName s = true) :
    '/' ∉ s ∧ '.' ∉ s ∧ Contains s ['.', '.'] = false ∧ Contains s ['/'] = false := by
  have h1 : '/' ∉ s := by
    intro hm
    have := List.all_eq_true.1 h _ hm
    simp at this
  have h2 : '.' ∉ s := by
    intro hm
    have := List.all_eq_true.1 h _ hm
    simp at this
  refine ⟨h1, h2, ?_, ?_⟩
  · cases hc : Contains s ['.', '.'] with
    | false => rfl
    | true => exact absurd (Contains_head_mem _ _ s hc) h2
  · cases hc : Contains s ['/'] with
    | false => rfl
    | true => exact absurd (Contains_head_mem _ _ s hc) h1

theorem hexDigit_plain : ∀ n, n < 16 → (hexDigit n != '/' && hexDigit n != '.') = true := by
  decide

theorem EncodeToString_length : ∀ bs : List UInt8, (EncodeToString bs).length = 2 * bs.length
  | [] => rfl
  | b :: bs => by simp [EncodeToString, EncodeToString_length bs]; omega

theorem EncodeToString_plain : ∀ bs : List UInt8, plainName (EncodeToString bs) = true
  | [] => rfl
  | b :: bs => by
    have hb : b.toNat < 256 := b.val.isLt
    have h1 := hexDigit_plain (b.toNat / 16) (by omega)
    have h2 := hexDigit_plain (b.toNat % 16) (by omega)
    have ih := EncodeToString_plain bs
    simp only [plainName, EncodeToString, List.all_cons, Bool.and_eq_true] at *
    exact ⟨h1, h2, ih⟩

theorem plainName_append (a b : Str) :
    plainName (a ++ b) = (plainName a && plainName b) := by
  simp [plainName, List.all_append]

theorem plainName_cons (c : Char) (s : Str) :
    plainName (c :: s) = ((c != '/' && c != '.') && plainName s) := by
  simp [plainName]

theorem UUID_String_plain (u : UUID) : plainName u.String = true := by
  simp only [UUID.String, plainName_append, plainName_cons, EncodeToString_plain]
  decide

/-! ## The reconciler tick -/

theorem expiredNamed_iff (L : GoLib) (now : Int) (recs : List Str) (p : Str) :
    expiredNamed L now recs p = true ↔
      ∃ e ∈ recs, ∃ expiresAt ttl, parseRecord L e = some (expiresAt, ttl, p) ∧
        expiresAt < now := by
  unfold expiredNamed
  rw [List.any_eq_true]
  constructor
  · rintro ⟨e, he, h⟩
    refine ⟨e, he, ?_⟩
    cases hr : parseRecord L e with
    | none => simp [hr] at h
    | some r =>
      obtain ⟨x, t, fp⟩ := r
      simp only [hr, Bool.and_eq_true, decide_eq_true_eq] at h
      exact ⟨x, t, by rw [h.1], h.2⟩
  · rintro ⟨e, he, x, t, hr, hx⟩
    exact ⟨e, he, by simp [hr, hx]⟩

/-- One tick on a journal of newline-terminated lines runs the loop over those lines
and the empty text after the last line break. -/
theorem logDeleteFunc_eq_scan (L : GoLib) (now : Int) (fs : FileSystem) (recs : List Str)
    (hnl : ∀ e ∈ recs, '\n' ∉ e) (hj : fs.files lsfPath = some (journalOf recs)) :
    logDeleteFunc L fs now = scanEntries L now (recs ++ [[]]) fs := by
  unfold logDeleteFunc OpenFileCreate
  simp only [hj, Split_journalOf recs hnl]

theorem wellFormed_no_newline (L : GoLib) (recs : List Str)
    (h : ∀ e ∈ recs, wellFormed L e = true) : ∀ e ∈ recs, '\n' ∉ e :=
  fun e he => ((wellFormed_iff L e).1 (h e he)).1

/-- C2 (amended): on a journal of well-formed records, with every removal succeeding, one
run of `logDeleteFunc` returns no error; a file that existed before the tick is absent
afterwards exactly when some record names its path with an expiration strictly before
`now`; every path no such record names keeps its file; and the journal keeps its text
when no such record names the journal file itself. -/
theorem logDeleteFunc_deletes_exactly_expired (L : GoLib) (now : Int) (fs : FileSystem)
    (recs : List Str) (hwf : ∀ e ∈ recs, wellFormed L e = true)
    (hj : fs.files lsfPath = some (journalOf recs)) (hrm : ∀ p, fs.removable p = true) :
    (logDeleteFunc L fs now).err = none ∧
    (∀ p, (fs.files p).isSome = true →
      ((logDeleteFunc L fs now).fs.files p = none ↔
        ∃ e ∈ recs, ∃ expiresAt ttl, parseRecord L e = some (expiresAt, ttl, p) ∧
          expiresAt < now)) ∧
    (∀ p, (¬ ∃ e ∈ recs, ∃ expiresAt ttl, parseRecord L e = some (expiresAt, ttl, p) ∧
        expiresAt < now) → (logDeleteFunc L fs now).fs.files p = fs.files p) ∧
    ((¬ ∃ e ∈ recs, ∃ expiresAt ttl, parseRecord L e = some (expiresAt, ttl, lsfPath) ∧
        expiresAt < now) → (logDeleteFunc L fs now).fs.files lsfPath = some (journalOf recs)) := by
  rw [logDeleteFunc_eq_scan L now fs recs (wellFormed_no_newline L recs hwf) hj]
  obtain ⟨h1, h2⟩ := scanEntries_wellFormed_fs L now recs fs hwf hrm
  have h3 : ∀ p, (¬ ∃ e ∈ recs, ∃ expiresAt ttl,
      parseRecord L e = some (expiresAt, ttl, p) ∧ expiresAt < now) →
      (scanEntries L now (recs ++ [[]]) fs).fs.files p = fs.files p := by
    intro p hp
    rw [h2 p, if_neg]
    rwa [expiredNamed_iff]
  refine ⟨h1, ?_, h3, ?_⟩
  · intro p hp
    rw [h2 p, ← expiredNamed_iff]
    by_cases hx : expiredNamed L now recs p = true
    · simp [hx]
    · rw [if_neg hx]
      constructor
      · intro hn
        rw [hn] at hp
        exact absurd hp (by simp)
      · intro h
        exact absurd h hx
  · intro hp
    rw [h3 lsfPath hp, hj]

/-- C4 (amended): on a journal of well-formed records, a blob that exists before the tick
is handed to `os.Remove` exactly when some record naming it has an expiration strictly
before `now`; a record with `now = expiresAt` or `now < expiresAt` triggers no attempt. -/
theorem logDeleteFunc_attempts_iff_strictly_expired (L : GoLib) (now : Int)
    (fs : FileSystem) (recs : List Str) (hwf : ∀ e ∈ recs, wellFormed L e = true)
    (hj : fs.files lsfPath = some (journalOf recs)) (p : Str)
    (hp : (fs.files p).isSome = true) :
    p ∈ (logDeleteFunc L fs now).removes ↔
      ∃ e ∈ recs, ∃ expiresAt ttl, parseRecord L e = some (expiresAt, ttl, p) ∧
        expiresAt < now := by
  rw [logDeleteFunc_eq_scan L now fs recs (wellFormed_no_newline L recs hwf) hj,
    scanEntries_wellFormed_removes L now recs fs hwf p, expiredNamed_iff]
  simp [hp]

/-- The loop over well-formed lines followed by more lines: it runs through the
well-formed lines and goes on with the rest. -/
theorem scanEntries_append_wellFormed (L : GoLib) (now : Int) (pre rest : List Str) :
    ∀ fs : FileSystem, (∀ e ∈ pre, wellFormed L e = true) →
      scanEntries L now (pre ++ rest) fs =
        { fs := (scanEntries L now rest (scanEntries L now pre fs).fs).fs
          err := (scanEntries L now rest (scanEntries L now pre fs).fs).err
          removes := (scanEntries L now pre fs).removes ++
            (scanEntries L now rest (scanEntries L now pre fs).fs).removes } := by
  induction pre with
  | nil => intro fs _; simp [scanEntries]
  | cons e es ih =>
    intro fs hwf
    obtain ⟨_, ⟨expiresAt, ttl, fp⟩, hrec⟩ := (wellFormed_iff L e).1 (hwf e (by simp))
    have hes : ∀ x ∈ es, wellFormed L x = true := fun x hx => hwf x (List.mem_cons_of_mem _ hx)
    rw [List.cons_append, scanEntries_cons_record L now e _ fs expiresAt ttl fp hrec,
      scanEntries_cons_record L now e es fs expiresAt ttl fp hrec]
    by_cases hc : (fs.files fp).isSome ∧ expiresAt < now
    · simp only [if_pos hc, ih (Remove fs fp).1 hes, List.cons_append]
    · simp only [if_neg hc, ih fs hes]

theorem scanEntries_wrong_fields (L : GoLib) (now : Int) (e : Str) (es : List Str)
    (fs : FileSystem) (h : (Split e ',').length ≠ 3) :
    scanEntries L now (e :: es) fs = ⟨fs, none, []⟩ := by
  rw [scanEntries]
  split
  · rename_i hs; rw [hs] at h; exact absurd rfl h
  · rfl

theorem scanEntries_missing_file (L : GoLib) (now : Int) (e : Str) (es : List Str)
    (fs : FileSystem) (a b c : Str) (hs : Split e ',' = [a, b, c]) (hf : fs.files c = none) :
    scanEntries L now (e :: es) fs = scanEntries L now es fs := by
  rw [scanEntries, hs]
  simp only [hf]

theorem scanEntries_unparseable (L : GoLib) (now : Int) (e : Str) (es : List Str)
    (fs : FileSystem) (a b c : Str) (hs : Split e ',' = [a, b, c])
    (hf : (fs.files c).isSome = true) (hbad : parseRecord L e = none) :
    scanEntries L now (e :: es) fs =
      ⟨fs, some (if L.parseUnixDate a = none then Err.failedToParseUnixDate
        else Err.invalidTtl), []⟩ := by
  obtain ⟨content, hc⟩ := Option.isSome_iff_exists.1 hf
  unfold parseRecord at hbad
  rw [hs] at hbad
  rw [scanEntries, hs]
  simp only [hc]
  cases hd : L.parseUnixDate a with
  | none => simp
  | some x =>
    cases ht : L.ParseDuration b with
    | none => simp
    | some y => simp [hd, ht] at hbad

/-- C3 (amended): a journal of well-formed records with one malformed line. The records
before the malformed line are processed as if the journal ended there. A line with a
wrong number of fields ends the scan with no error, and a three-field line whose path
names an existing file ends it with an error; no later record is processed. A
three-field malformed line whose path names no file is skipped, and the run is the run
on the journal without that line. -/
theorem logDeleteFunc_malformed_line (L : GoLib) (now : Int) (fs : FileSystem)
    (pre post : List Str) (bad : Str)
    (hpre : ∀ e ∈ pre, wellFormed L e = true) (hpost : ∀ e ∈ post, wellFormed L e = true)
    (hnl : '\n' ∉ bad) (hbad : parseRecord L bad = none)
    (hj : fs.files lsfPath = some (journalOf (pre ++ bad :: post))) :
    ((Split bad ',').length ≠ 3 →
      logDeleteFunc L fs now = scanEntries L now (Split (journalOf pre) '\n') fs) ∧
    (∀ a b c, Split bad ',' = [a, b, c] →
      ((scanEntries L now (Split (journalOf pre) '\n') fs).fs.files c).isSome = true →
      logDeleteFunc L fs now =
        { scanEntries L now (Split (journalOf pre) '\n') fs with
          err := some (if L.parseUnixDate a = none then Err.failedToParseUnixDate
            else Err.invalidTtl) }) ∧
    (∀ a b c, Split bad ',' = [a, b, c] →
      (scanEntries L now (Split (journalOf pre) '\n') fs).fs.files c = none →
      logDeleteFunc L fs now =
        scanEntries L now (Split (journalOf (pre ++ post)) '\n') fs) := by
  have hnpre := wellFormed_no_newline L pre hpre
  have hnpost := wellFormed_no_newline L post hpost
  have hnall : ∀ e ∈ pre ++ bad :: post, '\n' ∉ e := by
    intro e he
    rcases List.mem_append.1 he with h | h
    · exact hnpre e h
    · rcases List.mem_cons.1 h with h | h
      · rw [h]; exact hnl
      · exact hnpost e h
  have hnpp : ∀ e ∈ pre ++ post, '\n' ∉ e := by
    intro e he
    rcases List.mem_append.1 he with h | h
    · exact hnpre e h
    · exact hnpost e h
  rw [logDeleteFunc_eq_scan L now fs _ hnall hj, Split_journalOf pre hnpre,
    Split_journalOf _ hnpp]
  have e1 : (pre ++ bad :: post) ++ [[]] = pre ++ (bad :: (post ++ [[]])) := by simp
  have e2 : (pre ++ post) ++ [[]] = pre ++ (post ++ [[]]) := by simp
  rw [e1, e2, scanEntries_append_wellFormed L now pre _ fs hpre,
    scanEntries_append_wellFormed L now pre [[]] fs hpre,
    scanEntries_append_wellFormed L now pre (post ++ [[]]) fs hpre]
  simp only [scanEntries_empty_line, List.append_nil]
  refine ⟨fun h => ?_, fun a b c hs hf => ?_, fun a b c hs hf => ?_⟩
  · rw [scanEntries_wrong_fields L now bad _ _ h]
    simp
  · rw [scanEntries_unparseable L now bad _ _ a b c hs hf hbad]
    simp
  · rw [scanEntries_missing_file L now bad _ _ a b c hs hf]

/-! ## Download -/

theorem download_found (f : fileUploader) (fs : FileSystem) (r : Request) (fileBytes : Str)
    (h0 : r.Header defaultFileIdHeader ≠ [])
    (h1 : Contains (r.Header defaultFileIdHeader) ['.', '.'] = false)
    (h2 : Contains (r.Header defaultFileIdHeader) ['/'] = false)
    (hf : fs.files (Join f.p (r.Header defaultFileIdHeader)) = some fileBytes) :
    (download f fs r).resp.status = 200 ∧ (download f fs r).resp.body = fileBytes := by
  simp [download, h0, h1, h2, hf, StatusOK]

/-- C5: `download` answers 403 and reads no file exactly when the `x-file-id` value is
non-empty and contains `..` or `/`; it answers 400 when the value is empty, or is safe
and no file is at `filepath.Join(f.p, id)`; otherwise it answers 200 with the bytes of
that file. -/
theorem download_status_cases (f : fileUploader) (fs : FileSystem) (r : Request) :
    (((download f fs r).resp.status = 403 ∧ (download f fs r).reads = []) ↔
      (r.Header defaultFileIdHeader ≠ [] ∧
        (Contains (r.Header defaultFileIdHeader) ['.', '.'] = true ∨
          Contains (r.Header defaultFileIdHeader) ['/'] = true))) ∧
    (r.Header defaultFileIdHeader = [] → (download f fs r).resp.status = 400) ∧
    (r.Header defaultFileIdHeader ≠ [] →
      Contains (r.Header defaultFileIdHeader) ['.', '.'] = false →
      Contains (r.Header defaultFileIdHeader) ['/'] = false →
      fs.files (Join f.p (r.Header defaultFileIdHeader)) = none →
      (download f fs r).resp.status = 400) ∧
    (∀ fileBytes, r.Header defaultFileIdHeader ≠ [] →
      Contains (r.Header defaultFileIdHeader) ['.', '.'] = false →
      Contains (r.Header defaultFileIdHeader) ['/'] = false →
      fs.files (Join f.p (r.Header defaultFileIdHeader)) = some fileBytes →
      (download f fs r).resp.status = 200 ∧ (download f fs r).resp.body = fileBytes) := by
  refine ⟨?_, ?_, ?_, ?_⟩
  · by_cases h0 : r.Header defaultFileIdHeader = []
    · simp [download, h0, StatusBadRequest]
    · by_cases h1 : (Contains (r.Header defaultFileIdHeader) ['.', '.'] ||
          Contains (r.Header defaultFileIdHeader) ['/']) = true
      · have h1b := h1
        simp only [Bool.or_eq_true] at h1b
        simp [download, h0, h1, h1b, StatusForbidden]
      · have h1b := h1
        simp only [Bool.or_eq_true, not_or] at h1b
        cases hf : fs.files (Join f.p (r.Header defaultFileIdHeader)) <;>
          simp [download, h0, h1, h1b, hf, StatusBadRequest, StatusOK]
  · intro h0
    simp [download, h0, StatusBadRequest]
  · intro h0 h1 h2 hf
    simp [download, h0, h1, h2, hf, StatusBadRequest]
  · intro fileBytes h0 h1 h2 hf
    exact download_found f fs r fileBytes h0 h1 h2 hf

theorem Contains_dotdot_ne (id : Str) (h : Contains id ['.', '.'] = false) :
    id ≠ ['.', '.'] := by
  intro e
  rw [e] at h
  exact absurd h (by decide)

theorem Contains_slash_not_mem (id : Str) (h : Contains id ['/'] = false) : '/' ∉ id := by
  intro hm
  rw [(Contains_singleton '/' id).2 hm] at h
  exact absurd h (by decide)

/-- C10: for a non-empty identifier that passes the check of `download`, the path
`filepath.Join(storage root, id)` is the one path `download` reads, and it is the
storage root itself (for the identifier `.`) or the storage root, a slash and the
identifier, which holds no slash and is neither `.` nor `..`: a direct child. -/
theorem download_path_inside_storage (f : fileUploader) (fs : FileSystem) (r : Request)
    (hp : f.p = defaultStoragePath) (hne : r.Header defaultFileIdHeader ≠ [])
    (hdd : Contains (r.Header defaultFileIdHeader) ['.', '.'] = false)
    (hsl : Contains (r.Header defaultFileIdHeader) ['/'] = false) :
    (download f fs r).reads = [Join defaultStoragePath (r.Header defaultFileIdHeader)] ∧
    (Join defaultStoragePath (r.Header defaultFileIdHeader) = defaultStoragePath ∨
      (Join defaultStoragePath (r.Header defaultFileIdHeader) =
          defaultStoragePath ++ '/' :: r.Header defaultFileIdHeader ∧
        '/' ∉ r.Header defaultFileIdHeader ∧
        r.Header defaultFileIdHeader ≠ ['.'] ∧
        r.Header defaultFileIdHeader ≠ ['.', '.'])) := by
  have h1 := Contains_slash_not_mem _ hsl
  have h2 := Contains_dotdot_ne _ hdd
  constructor
  · cases hf : fs.files (Join defaultStoragePath (r.Header defaultFileIdHeader)) <;>
      simp [download, hne, hdd, hsl, hp, hf]
  · rw [Join_defaultStoragePath _ h1 h2]
    by_cases hd : r.Header defaultFileIdHeader = ['.']
    · left; simp [hd]
    · right
      rw [if_neg (by simp [hne, hd])]
      exact ⟨rfl, h1, hd, h2⟩

/-! ## Upload -/

theorem checksumOf_length (L : GoLib) (f : fileUploader) (now : Int) (B : Str) :
    (checksumOf L f now B).length = 64 := by
  simp [checksumOf, EncodeToString_length, L.highwayhash_size]

theorem hashFile_ok (L : GoLib) (f : fileUploader) (fs : FileSystem) (ns : UUID) (now : Int)
    (B id : Str) (h : (hashFile L f fs ns now B).result = .ok id) :
    id = checksumOf L f now B ∧
    (hashFile L f fs ns now B).fs.files (Join f.p id) = some B ∧
    (hashFile L f fs ns now B).f.p = f.p ∧
    (hashFile L f fs ns now B).f.h.written = f.h.written ++ L.timeString now ++ B := by
  unfold hashFile at h ⊢
  rcases hE : ensureDirWritable f fs ns with ⟨fs1, _ | e⟩
  · simp only [hE] at h ⊢
    cases hO : OpenFileExcl fs1 (Join f.p (EncodeToString
        (((f.h.Write (L.timeString now)).Write B).Sum L))) with
    | error e => simp [hO] at h
    | ok fs2 =>
      simp only [hO, Except.ok.injEq] at h ⊢
      subst h
      simp [checksumOf, HashState.Sum, HashState.Write, FileSystem.put]
  · simp [hE] at h

theorem checksumOf_safe (L : GoLib) (f : fileUploader) (now : Int) (B : Str) :
    checksumOf L f now B ≠ [] ∧ Contains (checksumOf L f now B) ['.', '.'] = false ∧
      Contains (checksumOf L f now B) ['/'] = false := by
  refine ⟨?_, ?_, ?_⟩
  · intro e
    have := checksumOf_length L f now B
    rw [e] at this
    exact absurd this (by decide)
  · exact (plainName_safe _ (EncodeToString_plain _)).2.2.1
  · exact (plainName_safe _ (EncodeToString_plain _)).2.2.2

/-- C1: when `hashFile` succeeds on the bytes `B` and returns `id`, the file at
`filepath.Join(f.p, id)` holds exactly `B`, and a `download` right after it with header
`x-file-id = id` answers 200 with the body `B`. -/
theorem hashFile_download_round_trip (L : GoLib) (f : fileUploader) (fs : FileSystem)
    (ns : UUID) (now : Int) (B id : Str) (r : Request)
    (h : (hashFile L f fs ns now B).result = .ok id)
    (hr : r.Header defaultFileIdHeader = id) :
    (hashFile L f fs ns now B).fs.files (Join f.p id) = some B ∧
    (download (hashFile L f fs ns now B).f (hashFile L f fs ns now B).fs r).resp.status = 200 ∧
    (download (hashFile L f fs ns now B).f (hashFile L f fs ns now B).fs r).resp.body = B := by
  obtain ⟨hid, hfile, hp, _⟩ := hashFile_ok L f fs ns now B id h
  obtain ⟨s1, s2, s3⟩ := checksumOf_safe L f now B
  rw [← hid] at s1 s2 s3
  refine ⟨hfile, ?_⟩
  have hd := download_found (hashFile L f fs ns now B).f
    (hashFile L f fs ns now B).fs r B
  rw [hr, hp] at hd
  exact hd s1 s2 s3 hfile

/-- The probe of `ensureDirWritable` leaves every existing file, and every path other
than the probe path, as it was. -/
theorem ensureDirWritable_files (f : fileUploader) (fs : FileSystem) (ns : UUID) (q : Str)
    (hq : q ≠ Join f.p ns.String ∨ (fs.files q).isSome = true) :
    (ensureDirWritable f fs ns).1.files q = fs.files q := by
  cases hpr : fs.files (Join f.p ns.String) with
  | some c =>
    have hO : OpenFileExcl fs (Join f.p ns.String) = .error .fileExists := by
      simp [OpenFileExcl, hpr]
    simp [ensureDirWritable, hO]
  | none =>
    have hne : q ≠ Join f.p ns.String := by
      rcases hq with h | h
      · exact h
      · intro e
        rw [e, hpr] at h
        exact absurd h (by simp)
    by_cases hc : fs.creatable (Join f.p ns.String) = true
    · have hO : OpenFileExcl fs (Join f.p ns.String) = .ok (fs.put (Join f.p ns.String) []) := by
        simp [OpenFileExcl, hpr, hc]
      simp only [ensureDirWritable, hO]
      rw [Remove_files_ne _ _ _ hne]
      simp [FileSystem.put, hne]
    · have hO : OpenFileExcl fs (Join f.p ns.String) = .error .permissionDenied := by
        simp [OpenFileExcl, hpr, hc]
      simp [ensureDirWritable, hO]

theorem probe_ne_lsfPath (ns : UUID) : lsfPath ≠ Join defaultStoragePath ns.String := by
  obtain ⟨h1, h2, _, _⟩ := plainName_safe _ (UUID_String_plain ns)
  have hdd : ns.String ≠ ['.', '.'] := fun e => h2 (by rw [e]; decide)
  have hne : ns.String ≠ [] := by simp [UUID.String]
  have hd : ns.String ≠ ['.'] := fun e => h2 (by rw [e]; decide)
  rw [Join_defaultStoragePath _ h1 hdd, if_neg (by simp [hne, hd])]
  intro e
  have e2 := congrArg (fun l => l.get? 16) e
  have hl : lsfPath = "/tmp/vanishling/log/entries.log".toList := by decide
  rw [hl] at e2
  simp [defaultStoragePath] at e2

theorem hashFile_collision (L : GoLib) (f : fileUploader) (fs : FileSystem) (ns : UUID)
    (now : Int) (B old : Str)
    (hex : fs.files (Join f.p (checksumOf L f now B)) = some old) :
    (∃ e, (hashFile L f fs ns now B).result = .error e) ∧
    (hashFile L f fs ns now B).fs = (ensureDirWritable f fs ns).1 := by
  have hkeep := ensureDirWritable_files f fs ns (Join f.p (checksumOf L f now B))
    (Or.inr (by simp [hex]))
  rw [hex] at hkeep
  unfold hashFile
  rcases hE : ensureDirWritable f fs ns with ⟨fs1, _ | e⟩
  · rw [hE] at hkeep
    simp only at hkeep
    have hO : OpenFileExcl fs1 (Join f.p (EncodeToString
        (((f.h.Write (L.timeString now)).Write B).Sum L))) = .error .fileExists := by
      have : EncodeToString (((f.h.Write (L.timeString now)).Write B).Sum L) =
          checksumOf L f now B := by
        simp [checksumOf, HashState.Sum, HashState.Write]
      rw [this]
      simp [OpenFileExcl, hkeep]
    simp only [hO]
    exact ⟨⟨_, rfl⟩, trivial⟩
  · exact ⟨⟨_, rfl⟩, rfl⟩

theorem hashFile_congr (L : GoLib) (f1 f2 : fileUploader) (fs : FileSystem) (ns : UUID)
    (now : Int) (B : Str) (hp : f1.p = f2.p) (hh : f1.h = f2.h) :
    (hashFile L f1 fs ns now B).fs = (hashFile L f2 fs ns now B).fs ∧
    (hashFile L f1 fs ns now B).result = (hashFile L f2 fs ns now B).result := by
  unfold hashFile ensureDirWritable
  simp only [hp, hh]
  constructor <;> (repeat' split) <;> simp_all

theorem setFileName_state (f : fileUploader) (fn : Str) (size : Nat) :
    (setFileName f fn size).1.p = f.p ∧ (setFileName f fn size).1.h = f.h := by
  unfold setFileName
  split_ifs <;> simp

/-- C6: when a file already exists at `filepath.Join(f.p, id)` for the identifier the
upload computes, `hashFile` returns an error and the existing file keeps its content;
`upload` answers 400 with no `x-file-id` header, the existing file keeps its content and
the journal file is as it was. -/
theorem upload_collision_rejected (L : GoLib) (f : fileUploader) (fs : FileSystem)
    (r : Request) (env : UploadEnv) (file : FormFile) (old : Str)
    (hp : f.p = defaultStoragePath) (hfile : r.formFile = some file)
    (hex : fs.files (Join f.p (checksumOf L f env.hashTime file.content)) = some old) :
    (∃ e, (hashFile L f fs env.ns env.hashTime file.content).result = .error e) ∧
    (hashFile L f fs env.ns env.hashTime file.content).fs.files
      (Join f.p (checksumOf L f env.hashTime file.content)) = some old ∧
    (upload L f fs r env).resp.status = 400 ∧
    (upload L f fs r env).resp.header = [] ∧
    (upload L f fs r env).fs.files
      (Join f.p (checksumOf L f env.hashTime file.content)) = some old ∧
    (upload L f fs r env).fs.files lsfPath = fs.files lsfPath := by
  obtain ⟨⟨e, he⟩, hfs⟩ := hashFile_collision L f fs env.ns env.hashTime file.content old hex
  have hkeep := ensureDirWritable_files f fs env.ns
    (Join f.p (checksumOf L f env.hashTime file.content)) (Or.inr (by simp [hex]))
  have hjournal := ensureDirWritable_files f fs env.ns lsfPath
    (Or.inl (by rw [hp]; exact probe_ne_lsfPath env.ns))
  refine ⟨⟨e, he⟩, by rw [hfs, hkeep, hex], ?_⟩
  unfold upload
  by_cases hm : r.multipartOk = true
  · simp only [hm, Bool.not_true, Bool.false_eq_true, if_false, hfile]
    rcases hS : setFileName { f with remoteAddr := auditAddr r } file.Filename
      file.content.length with ⟨f2, _ | e2⟩
    · have hst := setFileName_state { f with remoteAddr := auditAddr r } file.Filename
        file.content.length
      rw [hS] at hst
      obtain ⟨hc1, hc2⟩ := hashFile_congr L f2 f fs env.ns env.hashTime file.content
        hst.1 hst.2
      rcases hH : hashFile L f2 fs env.ns env.hashTime file.content with ⟨f3, fs3, res⟩
      rw [hH] at hc1 hc2
      simp only at hc1 hc2
      rw [he] at hc2
      subst hc2
      simp only [hH, StatusBadRequest, hc1, hfs, hkeep, hex, hjournal, and_self]
    · simp only [StatusBadRequest, hex, and_self]
  · simp only [hm, Bool.not_false, if_true, StatusBadRequest, hex, and_self]

theorem setFileName_err (f1 f2 : fileUploader) (fn : Str) (size : Nat) :
    (setFileName f1 fn size).2 = (setFileName f2 fn size).2 := by
  unfold setFileName
  split_ifs <;> rfl

/-- C7 (what the code does): the identifier `hashFile` returns is the 64-character hex
text of the keyed hash of everything earlier calls wrote to the service's one hash,
followed by this call's mixer and bytes, and the call leaves all of it in the hash for
the next call. -/
theorem hashFile_identifier_of_history (L : GoLib) (f : fileUploader) (fs : FileSystem)
    (ns : UUID) (now : Int) (B id : Str) (h : (hashFile L f fs ns now B).result = .ok id) :
    id = EncodeToString (L.highwayhash (f.h.written ++ L.timeString now ++ B)) ∧
    id.length = 64 ∧
    (hashFile L f fs ns now B).f.h.written = f.h.written ++ L.timeString now ++ B := by
  obtain ⟨hid, _, _, hw⟩ := hashFile_ok L f fs ns now B id h
  refine ⟨hid, ?_, hw⟩
  rw [hid]
  exact checksumOf_length L f now B

/-! ## The journal append -/

theorem Split_three (a b c : Str) (ha : ',' ∉ a) (hb : ',' ∉ b) (hc : ',' ∉ c) :
    Split (a ++ ',' :: (b ++ ',' :: c)) ',' = [a, b, c] := by
  rw [Split_append_sep, Split_append_sep, Split_of_not_mem _ _ ha, Split_of_not_mem _ _ hb,
    Split_of_not_mem _ _ hc]
  rfl

/-- C8 (amended): a successful `WriteLogEntry(d, s, f)` at time `t`, for `s` and `f` whose
joined path holds neither a comma nor a line break, leaves the journal equal to its old
text followed by one newline-terminated line; the line holds no line break and its
comma-separated fields are exactly the `UnixDate` text of `t + d`, the text of `d`, and
`filepath.Join(s, f)`; no other file changes. -/
theorem WriteLogEntry_appends_one_record (L : GoLib) (fs : FileSystem) (now ttl : Int)
    (s f : Str) (hc : ',' ∉ Join s f) (hn : '\n' ∉ Join s f)
    (hok : (WriteLogEntry L fs now ttl s f).2 = none) :
    (WriteLogEntry L fs now ttl s f).1.files lsfPath =
      some ((fs.files lsfPath).getD [] ++
        ((L.formatUnixDate (now + ttl) ++ ',' :: (L.durationString ttl ++ ',' :: Join s f))
          ++ ['\n'])) ∧
    '\n' ∉ L.formatUnixDate (now + ttl) ++ ',' :: (L.durationString ttl ++ ',' :: Join s f) ∧
    Split (L.formatUnixDate (now + ttl) ++ ',' :: (L.durationString ttl ++ ',' :: Join s f)) ','
      = [L.formatUnixDate (now + ttl), L.durationString ttl, Join s f] ∧
    (∀ p, p ≠ lsfPath → (WriteLogEntry L fs now ttl s f).1.files p = fs.files p) := by
  obtain ⟨hd1, hd2⟩ := L.formatUnixDate_plain (now + ttl)
  obtain ⟨ht1, ht2⟩ := L.durationString_plain ttl
  refine ⟨?_, ?_, Split_three _ _ _ hd1 ht1 hc, ?_⟩
  · unfold WriteLogEntry OpenFileCreate at hok ⊢
    cases hj : fs.files lsfPath with
    | some J => simp [hj, FileSystem.put]
    | none =>
      by_cases hcr : fs.creatable lsfPath = true
      · simp [hj, hcr, FileSystem.put]
      · simp [hj, hcr] at hok
  · simp only [List.mem_append, List.mem_cons, not_or]
    exact ⟨hd2, by decide, ht2, by decide, hn⟩
  · intro p hp
    unfold WriteLogEntry OpenFileCreate at hok ⊢
    cases hj : fs.files lsfPath with
    | some J => simp [hj, FileSystem.put, hp]
    | none =>
      by_cases hcr : fs.creatable lsfPath = true
      · simp [hj, hcr, FileSystem.put, hp]
      · simp [hj, hcr] at hok

/-! ## Further facts on `hashFile` and the service state -/

theorem hexDigit_no_dash : ∀ n, n < 16 → hexDigit n ≠ '-' := by
  decide

theorem EncodeToString_no_dash : ∀ bs : List UInt8, '-' ∉ EncodeToString bs
  | [] => by simp [EncodeToString]
  | b :: bs => by
    have hb : b.toNat < 256 := b.val.isLt
    have h1 := hexDigit_no_dash (b.toNat / 16) (by omega)
    have h2 := hexDigit_no_dash (b.toNat % 16) (by omega)
    have ih := EncodeToString_no_dash bs
    simp only [EncodeToString, List.mem_cons, not_or]
    exact ⟨fun e => h1 e.symm, fun e => h2 e.symm, ih⟩

theorem Join_defaultStoragePath_plain (id : Str) (hne : id ≠ []) (hpl : plainName id = true) :
    Join defaultStoragePath id = defaultStoragePath ++ '/' :: id := by
  obtain ⟨h1, h2, _, _⟩ := plainName_safe id hpl
  have hdd : id ≠ ['.', '.'] := fun e => h2 (by rw [e]; decide)
  have hd : id ≠ ['.'] := fun e => h2 (by rw [e]; decide)
  rw [Join_defaultStoragePath id h1 hdd, if_neg (by simp [hne, hd])]

/-- The premise of C1 can be met: with the storage root writable, no file at the probe
path and none at the destination, `hashFile` succeeds and returns the checksum. -/
theorem hashFile_succeeds (L : GoLib) (f : fileUploader) (fs : FileSystem) (ns : UUID)
    (now : Int) (B : Str) (hp : f.p = defaultStoragePath)
    (hw : ∀ p, fs.creatable p = true)
    (hprobe : fs.files (Join f.p ns.String) = none)
    (hdest : fs.files (Join f.p (checksumOf L f now B)) = none) :
    (hashFile L f fs ns now B).result = .ok (checksumOf L f now B) := by
  have hne : Join f.p (checksumOf L f now B) ≠ Join f.p ns.String := by
    rw [hp, Join_defaultStoragePath_plain _ (checksumOf_safe L f now B).1
      (EncodeToString_plain _),
      Join_defaultStoragePath_plain _ (by simp [UUID.String]) (UUID_String_plain ns)]
    intro e
    have e2 : checksumOf L f now B = ns.String := by
      have := List.append_cancel_left e
      exact (List.cons.inj this).2
    have hd : '-' ∈ ns.String := by simp [UUID.String]
    rw [← e2] at hd
    exact EncodeToString_no_dash _ hd
  have hkeep := ensureDirWritable_files f fs ns _ (Or.inl hne)
  rw [hdest] at hkeep
  have hO : OpenFileExcl fs (Join f.p ns.String) = .ok (fs.put (Join f.p ns.String) []) := by
    simp [OpenFileExcl, hprobe, hw]
  have hE : ensureDirWritable f fs ns =
      ((Remove (fs.put (Join f.p ns.String) []) (Join f.p ns.String)).1, none) := by
    simp [ensureDirWritable, hO]
  have hcr : (ensureDirWritable f fs ns).1.creatable = fs.creatable := by
    rw [hE]
    exact (Remove_perms _ _).1
  have hsum : EncodeToString (((f.h.Write (L.timeString now)).Write B).Sum L) =
      checksumOf L f now B := by
    simp [checksumOf, HashState.Sum, HashState.Write]
  have hO2 : OpenFileExcl (ensureDirWritable f fs ns).1 (Join f.p (checksumOf L f now B)) =
      .ok ((ensureDirWritable f fs ns).1.put (Join f.p (checksumOf L f now B)) []) := by
    simp [OpenFileExcl, hkeep, hcr, hw]
  unfold hashFile
  rw [hE] at hO2 ⊢
  simp only [hsum, hO2]

theorem hashFile_keeps_storage_root (L : GoLib) (f : fileUploader) (fs : FileSystem)
    (ns : UUID) (now : Int) (B : Str) : (hashFile L f fs ns now B).f.p = f.p := by
  unfold hashFile
  rcases hE : ensureDirWritable f fs ns with ⟨fs1, _ | e⟩
  · simp only
    cases hO : OpenFileExcl fs1 (Join f.p (EncodeToString
        (((f.h.Write (L.timeString now)).Write B).Sum L))) <;> rfl
  · rfl

theorem upload_keeps_storage_root (L : GoLib) (f : fileUploader) (fs : FileSystem)
    (r : Request) (env : UploadEnv) : (upload L f fs r env).f.p = f.p := by
  unfold upload
  by_cases hm : r.multipartOk = true
  · simp only [hm, Bool.not_true, Bool.false_eq_true, if_false]
    cases hfile : r.formFile with
    | none => rfl
    | some file =>
      simp only
      rcases hS : setFileName { f with remoteAddr := auditAddr r } file.Filename
        file.content.length with ⟨f2, _ | e2⟩
      · have hst := setFileName_state { f with remoteAddr := auditAddr r } file.Filename
          file.content.length
        rw [hS] at hst
        simp only
        have hH := hashFile_keeps_storage_root L f2 fs env.ns env.hashTime file.content
        rcases hH2 : hashFile L f2 fs env.ns env.hashTime file.content with ⟨f3, fs3, _ | _⟩ <;>
        · rw [hH2] at hH
          simp only at hH
          simp only [hH]
          exact hst.1
      · have hst := setFileName_state { f with remoteAddr := auditAddr r } file.Filename
          file.content.length
        rw [hS] at hst
        exact hst.1
  · simp only [hm, Bool.not_false, if_true]

theorem download_keeps_storage_root (f : fileUploader) (fs : FileSystem) (r : Request) :
    (download f fs r).f.p = f.p := by
  unfold download
  simp only
  repeat' split
  all_goals rfl

/-! ## The ttl an upload journals -/

theorem blob_ne_lsfPath (id : Str) (hne : id ≠ []) (hpl : plainName id = true) :
    lsfPath ≠ Join defaultStoragePath id := by
  rw [Join_defaultStoragePath_plain id hne hpl]
  intro e
  have e2 := congrArg (fun l => l.get? 16) e
  have hl : lsfPath = "/tmp/vanishling/log/entries.log".toList := by decide
  rw [hl] at e2
  simp [defaultStoragePath] at e2

theorem OpenFileExcl_ok (fs fs2 : FileSystem) (p : Str) (h : OpenFileExcl fs p = .ok fs2) :
    fs2 = fs.put p [] := by
  unfold OpenFileExcl at h
  cases hf : fs.files p with
  | some c => simp [hf] at h
  | none =>
    by_cases hc : fs.creatable p = true
    · simp [hf, hc] at h
      exact h.symm
    · simp [hf, hc] at h

theorem ensureDirWritable_creatable (f : fileUploader) (fs : FileSystem) (ns : UUID) :
    (ensureDirWritable f fs ns).1.creatable = fs.creatable := by
  cases hO : OpenFileExcl fs (Join f.p ns.String) with
  | error e => simp [ensureDirWritable, hO]
  | ok fs1 =>
    simp only [ensureDirWritable, hO]
    rw [(Remove_perms _ _).1, OpenFileExcl_ok _ _ _ hO]
    rfl

/-- With the storage root of `newFileUploaderSvc`, `hashFile` leaves the journal file and
the permissions as they were. -/
theorem hashFile_journal_untouched (L : GoLib) (f : fileUploader) (fs : FileSystem)
    (ns : UUID) (now : Int) (B : Str) (hp : f.p = defaultStoragePath) :
    (hashFile L f fs ns now B).fs.files lsfPath = fs.files lsfPath ∧
    (hashFile L f fs ns now B).fs.creatable = fs.creatable := by
  have hj := ensureDirWritable_files f fs ns lsfPath
    (Or.inl (by rw [hp]; exact probe_ne_lsfPath ns))
  have hc := ensureDirWritable_creatable f fs ns
  have hsum : EncodeToString (((f.h.Write (L.timeString now)).Write B).Sum L) =
      checksumOf L f now B := by
    simp [checksumOf, HashState.Sum, HashState.Write]
  have hne : lsfPath ≠ Join f.p (checksumOf L f now B) := by
    rw [hp]
    exact blob_ne_lsfPath _ (checksumOf_safe L f now B).1 (EncodeToString_plain _)
  unfold hashFile
  rcases hE : ensureDirWritable f fs ns with ⟨fs1, _ | e⟩
  · rw [hE] at hj hc
    simp only at hj hc
    simp only [hsum]
    cases hO : OpenFileExcl fs1 (Join f.p (checksumOf L f now B)) with
    | error e => exact ⟨hj, hc⟩
    | ok fs2 =>
      rw [OpenFileExcl_ok _ _ _ hO]
      simp only [FileSystem.put, hne, if_false]
      exact ⟨hj, hc⟩
  · rw [hE] at hj hc
    exact ⟨hj, hc⟩

theorem WriteLogEntry_journal (L : GoLib) (fs : FileSystem) (now ttl : Int) (s f : Str)
    (hopen : (fs.files lsfPath).isSome = true ∨ fs.creatable lsfPath = true) :
    (WriteLogEntry L fs now ttl s f).1.files lsfPath =
      some ((fs.files lsfPath).getD [] ++ (journalRecord L now ttl (Join s f) ++ ['\n'])) ∧
    (WriteLogEntry L fs now ttl s f).1.creatable = fs.creatable := by
  unfold WriteLogEntry OpenFileCreate journalRecord
  cases hj : fs.files lsfPath with
  | some J => simp [hj, FileSystem.put]
  | none =>
    have hcr : fs.creatable lsfPath = true := by
      rcases hopen with h | h
      · rw [hj] at h; exact absurd h (by simp)
      · exact h
    simp [hj, hcr, FileSystem.put]

/-- The method `upload` is its part up to line 188 followed by line 191. -/
theorem upload_eq_store_then_journal (L : GoLib) (f : fileUploader) (fs : FileSystem)
    (r : Request) (env : UploadEnv) :
    upload L f fs r env =
      match (uploadStore L f fs r env).2 with
      | none => (uploadStore L f fs r env).1
      | some id =>
        ⟨(uploadStore L f fs r env).1.f,
          uploadJournal L (uploadStore L f fs r env).1.f (uploadStore L f fs r env).1.fs
            env.logTime id,
          (uploadStore L f fs r env).1.resp⟩ := by
  unfold upload uploadStore uploadJournal
  by_cases hm : r.multipartOk = true
  · simp only [hm, Bool.not_true, Bool.false_eq_true, if_false]
    cases hfile : r.formFile with
    | none => rfl
    | some file =>
      simp only
      rcases hS : setFileName { f with remoteAddr := auditAddr r } file.Filename
        file.content.length with ⟨f2, _ | e2⟩
      · simp only
        rcases hH : hashFile L f2 fs env.ns env.hashTime file.content with ⟨f3, fs3, _ | _⟩ <;>
          rfl
      · rfl
  · simp only [hm, Bool.not_false, if_true]

/-- An upload whose file name is accepted and whose blob `hashFile` stores under `id`
reaches line 188 with `id` still to be journaled. -/
theorem uploadStore_stored (L : GoLib) (f : fileUploader) (fs : FileSystem)
    (r : Request) (env : UploadEnv) (file : FormFile) (id : Str)
    (hm : r.multipartOk = true) (hfile : r.formFile = some file)
    (hname : (setFileName f file.Filename file.content.length).2 = none)
    (hh : (hashFile L f fs env.ns env.hashTime file.content).result = .ok id) :
    (uploadStore L f fs r env).2 = some id := by
  unfold uploadStore
  simp only [hm, Bool.not_true, Bool.false_eq_true, if_false, hfile]
  rcases hS : setFileName { f with remoteAddr := auditAddr r } file.Filename
    file.content.length with ⟨f2, _ | e2⟩
  · have hst := setFileName_state { f with remoteAddr := auditAddr r } file.Filename
      file.content.length
    rw [hS] at hst
    obtain ⟨_, hc2⟩ := hashFile_congr L f2 f fs env.ns env.hashTime file.content
      hst.1 hst.2
    rcases hH : hashFile L f2 fs env.ns env.hashTime file.content with ⟨f3, fs3, res⟩
    rw [hH] at hc2
    simp only at hc2
    rw [hh] at hc2
    subst hc2
    simp only [hH]
  · have := setFileName_err { f with remoteAddr := auditAddr r } f file.Filename
      file.content.length
    rw [hS, hname] at this
    exact absurd this (by simp)

/-- When `upload` reaches line 188 with `id` to journal, it has answered 200 with
`x-file-id = id` and has stored the effective ttl of its own request in the shared
field. -/
theorem uploadStore_some (L : GoLib) (f : fileUploader) (fs : FileSystem)
    (r : Request) (env : UploadEnv) (id : Str)
    (h : (uploadStore L f fs r env).2 = some id) :
    (uploadStore L f fs r env).1.resp = ⟨200, [(defaultFileIdHeader, id)], []⟩ ∧
    (uploadStore L f fs r env).1.f.Ttl = effectiveTTL L (r.Header defaultTTLHeader) := by
  unfold uploadStore at h ⊢
  by_cases hm : r.multipartOk = true
  · simp only [hm, Bool.not_true, Bool.false_eq_true, if_false] at h ⊢
    cases hfile : r.formFile with
    | none => simp [hfile] at h
    | some file =>
      simp only [hfile] at h ⊢
      rcases hS : setFileName { f with remoteAddr := auditAddr r } file.Filename
        file.content.length with ⟨f2, _ | e2⟩
      · simp only [hS] at h ⊢
        rcases hH : hashFile L f2 fs env.ns env.hashTime file.content with
          ⟨f3, fs3, e3 | id3⟩
        · simp [hH] at h
        · simp only [hH, Option.some.injEq] at h ⊢
          subst h
          refine ⟨rfl, ?_⟩
          by_cases h0 : r.Header defaultTTLHeader = []
          · simp [effectiveTTL, h0]
          · have hl : (r.Header defaultTTLHeader).length ≠ 0 :=
              fun e => h0 (List.length_eq_zero.1 e)
            cases hpd : L.ParseDuration (r.Header defaultTTLHeader) <;>
              simp [effectiveTTL, h0, hl, hpd]
      · simp [hS] at h
  · simp [hm] at h

/-- With the storage root of `newFileUploaderSvc`, the part of `upload` up to line 188
keeps the storage root and leaves the journal file and the permissions as they were. -/
theorem uploadStore_frame (L : GoLib) (f : fileUploader) (fs : FileSystem)
    (r : Request) (env : UploadEnv) (hp : f.p = defaultStoragePath) :
    (uploadStore L f fs r env).1.f.p = defaultStoragePath ∧
    (uploadStore L f fs r env).1.fs.files lsfPath = fs.files lsfPath ∧
    (uploadStore L f fs r env).1.fs.creatable = fs.creatable := by
  unfold uploadStore
  by_cases hm : r.multipartOk = true
  · simp only [hm, Bool.not_true, Bool.false_eq_true, if_false]
    cases hfile : r.formFile with
    | none => exact ⟨hp, rfl, rfl⟩
    | some file =>
      simp only
      have hst := setFileName_state { f with remoteAddr := auditAddr r } file.Filename
        file.content.length
      rcases hS : setFileName { f with remoteAddr := auditAddr r } file.Filename
        file.content.length with ⟨f2, _ | e2⟩
      · rw [hS] at hst
        have hp2 : f2.p = defaultStoragePath := by rw [hst.1]; exact hp
        have hk := hashFile_keeps_storage_root L f2 fs env.ns env.hashTime file.content
        have hu := hashFile_journal_untouched L f2 fs env.ns env.hashTime file.content hp2
        simp only
        rcases hH : hashFile L f2 fs env.ns env.hashTime file.content with
          ⟨f3, fs3, e3 | id3⟩ <;>
        · rw [hH] at hk hu
          simp only at hk hu
          exact ⟨by rw [hk]; exact hp2, hu.1, hu.2⟩
      · rw [hS] at hst
        exact ⟨by rw [hst.1]; exact hp, rfl, rfl⟩
  · simp only [hm, Bool.not_false, if_true, and_self, and_true]
    exact hp

theorem hexDigit_no_comma : ∀ n, n < 16 → hexDigit n ≠ ',' := by
  decide

theorem EncodeToString_no_comma : ∀ bs : List UInt8, ',' ∉ EncodeToString bs
  | [] => by simp [EncodeToString]
  | b :: bs => by
    have hb : b.toNat < 256 := b.val.isLt
    have h1 := hexDigit_no_comma (b.toNat / 16) (by omega)
    have h2 := hexDigit_no_comma (b.toNat % 16) (by omega)
    have ih := EncodeToString_no_comma bs
    simp only [EncodeToString, List.mem_cons, not_or]
    exact ⟨fun e => h1 e.symm, fun e => h2 e.symm, ih⟩

theorem blob_path_no_comma (L : GoLib) (f : fileUploader) (now : Int) (B : Str) :
    ',' ∉ Join defaultStoragePath (checksumOf L f now B) := by
  rw [Join_defaultStoragePath_plain _ (checksumOf_safe L f now B).1 (EncodeToString_plain _)]
  simp only [List.mem_append, List.mem_cons, not_or]
  exact ⟨by decide, by decide, EncodeToString_no_comma _⟩

/-- An upload that no other upload overlaps journals its own effective ttl: when the
file name is accepted, `hashFile` stores the blob under `id` and the journal can be
opened, `upload` answers 200 with `x-file-id = id` whatever `x-ttl` holds, and the journal
file becomes its old text followed by one line whose comma-separated fields are the
expiration text of `logTime + ttl`, the text of `ttl` and the blob path, where `ttl` is
the parsed `x-ttl` when that header is non-empty and parses, and the default ttl of
5 minutes otherwise. -/
theorem upload_alone_journals_effective_ttl (L : GoLib) (f : fileUploader)
    (fs : FileSystem) (r : Request) (env : UploadEnv) (file : FormFile) (id : Str)
    (hp : f.p = defaultStoragePath)
    (hm : r.multipartOk = true) (hfile : r.formFile = some file)
    (hname : (setFileName f file.Filename file.content.length).2 = none)
    (hh : (hashFile L f fs env.ns env.hashTime file.content).result = .ok id)
    (hopen : (fs.files lsfPath).isSome = true ∨ fs.creatable lsfPath = true) :
    (upload L f fs r env).resp = ⟨200, [(defaultFileIdHeader, id)], []⟩ ∧
    (upload L f fs r env).fs.files lsfPath =
      some ((fs.files lsfPath).getD [] ++
        (journalRecord L env.logTime (effectiveTTL L (r.Header defaultTTLHeader))
          (Join defaultStoragePath id) ++ ['\n'])) ∧
    Split (journalRecord L env.logTime (effectiveTTL L (r.Header defaultTTLHeader))
        (Join defaultStoragePath id)) ',' =
      [L.formatUnixDate (env.logTime + effectiveTTL L (r.Header defaultTTLHeader)),
        L.durationString (effectiveTTL L (r.Header defaultTTLHeader)),
        Join defaultStoragePath id] ∧
    (r.Header defaultTTLHeader = [] ∨ L.ParseDuration (r.Header defaultTTLHeader) = none →
      effectiveTTL L (r.Header defaultTTLHeader) = defaultFileTTL) ∧
    (∀ d, r.Header defaultTTLHeader ≠ [] → L.ParseDuration (r.Header defaultTTLHeader) = some d →
      effectiveTTL L (r.Header defaultTTLHeader) = d) ∧
    defaultFileTTL = 300000000000 := by
  have hT : (r.Header defaultTTLHeader = [] ∨
      L.ParseDuration (r.Header defaultTTLHeader) = none →
      effectiveTTL L (r.Header defaultTTLHeader) = defaultFileTTL) := by
    rintro (h | h)
    · simp [effectiveTTL, h]
    · unfold effectiveTTL
      split_ifs <;> simp [h]
  have hT2 : ∀ d, r.Header defaultTTLHeader ≠ [] →
      L.ParseDuration (r.Header defaultTTLHeader) = some d →
      effectiveTTL L (r.Header defaultTTLHeader) = d := by
    intro d h1 h2
    simp [effectiveTTL, h1, h2]
  have hst := uploadStore_stored L f fs r env file id hm hfile hname hh
  obtain ⟨hresp, httl⟩ := uploadStore_some L f fs r env id hst
  obtain ⟨_, hj, hc⟩ := uploadStore_frame L f fs r env hp
  have hopen2 : ((uploadStore L f fs r env).1.fs.files lsfPath).isSome = true ∨
      (uploadStore L f fs r env).1.fs.creatable lsfPath = true := by
    rw [hj, hc]; exact hopen
  have hid := (hashFile_ok L f fs env.ns env.hashTime file.content id hh).1
  have hsplit : Split (journalRecord L env.logTime (effectiveTTL L (r.Header defaultTTLHeader))
        (Join defaultStoragePath id)) ',' =
      [L.formatUnixDate (env.logTime + effectiveTTL L (r.Header defaultTTLHeader)),
        L.durationString (effectiveTTL L (r.Header defaultTTLHeader)),
        Join defaultStoragePath id] := by
    unfold journalRecord
    refine Split_three _ _ _ (L.formatUnixDate_plain _).1 (L.durationString_plain _).1 ?_
    rw [hid]
    exact blob_path_no_comma L f env.hashTime file.content
  refine ⟨?_, ?_, hsplit, hT, hT2, by decide⟩
  · rw [upload_eq_store_then_journal, hst]
    exact hresp
  · rw [upload_eq_store_then_journal, hst]
    simp only [uploadJournal, httl]
    rw [(WriteLogEntry_journal L _ env.logTime _ defaultStoragePath id hopen2).1, hj]

/-- C9 (what the code does): two uploads A and B overlap on the one service, both blobs
are stored, and B stores its ttl in the shared field before A writes its journal entry.
Both are answered 200 with their `x-file-id`, and the journal file becomes its old text,
then A's record, then B's record; the record of A's blob carries the effective ttl of
B's request, not that of A's own `x-ttl` header. -/
theorem overlappedUploads_journal_other_ttl (L : GoLib) (f : fileUploader)
    (fs : FileSystem) (rA : Request) (envA : UploadEnv) (rB : Request) (envB : UploadEnv)
    (idA idB : Str) (hp : f.p = defaultStoragePath)
    (hA : (uploadStore L f fs rA envA).2 = some idA)
    (hB : (uploadStore L (uploadStore L f fs rA envA).1.f (uploadStore L f fs rA envA).1.fs
      rB envB).2 = some idB)
    (hopen : (fs.files lsfPath).isSome = true ∨ fs.creatable lsfPath = true) :
    (overlappedUploads L f fs rA envA rB envB).respA =
      ⟨200, [(defaultFileIdHeader, idA)], []⟩ ∧
    (overlappedUploads L f fs rA envA rB envB).respB =
      ⟨200, [(defaultFileIdHeader, idB)], []⟩ ∧
    (overlappedUploads L f fs rA envA rB envB).fs.files lsfPath =
      some ((fs.files lsfPath).getD [] ++
        (journalRecord L envA.logTime (effectiveTTL L (rB.Header defaultTTLHeader))
          (Join defaultStoragePath idA) ++ ['\n']) ++
        (journalRecord L envB.logTime (effectiveTTL L (rB.Header defaultTTLHeader))
          (Join defaultStoragePath idB) ++ ['\n'])) := by
  obtain ⟨hrespA, _⟩ := uploadStore_some L f fs rA envA idA hA
  obtain ⟨hpA, hjA, hcA⟩ := uploadStore_frame L f fs rA envA hp
  obtain ⟨hrespB, httlB⟩ := uploadStore_some L _ _ rB envB idB hB
  obtain ⟨_, hjB, hcB⟩ := uploadStore_frame L _ (uploadStore L f fs rA envA).1.fs rB envB hpA
  have hopenB : ((uploadStore L (uploadStore L f fs rA envA).1.f
      (uploadStore L f fs rA envA).1.fs rB envB).1.fs.files lsfPath).isSome = true ∨
      (uploadStore L (uploadStore L f fs rA envA).1.f
        (uploadStore L f fs rA envA).1.fs rB envB).1.fs.creatable lsfPath = true := by
    rw [hjB, hcB, hjA, hcA]; exact hopen
  obtain ⟨hw1, _⟩ := WriteLogEntry_journal L _ envA.logTime
    (effectiveTTL L (rB.Header defaultTTLHeader)) defaultStoragePath idA hopenB
  have hw2 := (WriteLogEntry_journal L
    (WriteLogEntry L (uploadStore L (uploadStore L f fs rA envA).1.f
      (uploadStore L f fs rA envA).1.fs rB envB).1.fs envA.logTime
      (effectiveTTL L (rB.Header defaultTTLHeader)) defaultStoragePath idA).1
    envB.logTime (effectiveTTL L (rB.Header defaultTTLHeader)) defaultStoragePath idB
    (Or.inl (by rw [hw1]; rfl))).1
  refine ⟨?_, ?_, ?_⟩
  · simp only [overlappedUploads]
    exact hrespA
  · simp only [overlappedUploads]
    exact hrespB
  · simp only [overlappedUploads, hA, hB, uploadJournal, httlB]
    rw [hw2, hw1, hjB, hjA]
    simp

/-! ## Concrete runs -/

theorem hashFile_download_round_trip_witness :
    (hashFile stubLib newFileUploaderSvc (fsOf []) envZero.ns t2001 fileAbc.content).result
        = .ok idAbc ∧
    (hashFile stubLib newFileUploaderSvc (fsOf []) envZero.ns t2001 fileAbc.content).fs.files
        (Join defaultStoragePath idAbc) = some "abc".toList ∧
    (download
        (hashFile stubLib newFileUploaderSvc (fsOf []) envZero.ns t2001 fileAbc.content).f
        (hashFile stubLib newFileUploaderSvc (fsOf []) envZero.ns t2001 fileAbc.content).fs
        (requestOf idAbc [] none)).resp.status = 200 ∧
    (download
        (hashFile stubLib newFileUploaderSvc (fsOf []) envZero.ns t2001 fileAbc.content).f
        (hashFile stubLib newFileUploaderSvc (fsOf []) envZero.ns t2001 fileAbc.content).fs
        (requestOf idAbc [] none)).resp.body = "abc".toList :=
  ⟨by decide,
    hashFile_download_round_trip stubLib newFileUploaderSvc (fsOf []) envZero.ns t2001
      fileAbc.content idAbc (requestOf idAbc [] none) (by decide) (by decide)⟩

/-- C2 as stated fails: the journal's one well-formed record names the journal file and
has expired, every removal succeeds, and the tick removes the journal. -/
theorem logDeleteFunc_removes_journal :
    (∀ e ∈ [recordJournal], wellFormed stubLib e = true) ∧
    fsJournalSelf.files lsfPath = some (journalOf [recordJournal]) ∧
    (∀ p, fsJournalSelf.removable p = true) ∧
    (logDeleteFunc stubLib fsJournalSelf (t2001 + 1)).fs.files lsfPath = none :=
  ⟨by decide, by decide, fun _ => rfl, by decide⟩

theorem logDeleteFunc_deletes_exactly_expired_witness :
    (∀ e ∈ [recordAb], wellFormed stubLib e = true) ∧
    fsAb.files lsfPath = some (journalOf [recordAb]) ∧
    (logDeleteFunc stubLib fsAb (t2001 + 1)).err = none :=
  ⟨by decide, by decide,
    (logDeleteFunc_deletes_exactly_expired stubLib (t2001 + 1) fsAb [recordAb] (by decide)
      (by decide) (fun _ => rfl)).1⟩

/-- C3 as stated fails: a one-field line comes before the expired record of an existing
blob; the tick keeps the blob, while the run over the journal without that line
removes it. -/
theorem logDeleteFunc_stops_at_malformed_line :
    parseRecord stubLib lineGarbage = none ∧
    wellFormed stubLib recordAb = true ∧
    fsGarbage.files lsfPath = some (journalOf [lineGarbage, recordAb]) ∧
    (logDeleteFunc stubLib fsGarbage (t2001 + 1)).fs.files blobAb = some "x".toList ∧
    (logDeleteFunc stubLib fsGarbage (t2001 + 1)).removes = [] ∧
    (scanEntries stubLib (t2001 + 1) (Split (journalOf [recordAb]) '\n') fsGarbage).fs.files
      blobAb = none := by
  decide

theorem logDeleteFunc_malformed_line_witness :
    parseRecord stubLib lineGarbage = none ∧
    fsGarbage.files lsfPath = some (journalOf ([] ++ lineGarbage :: [recordAb])) ∧
    logDeleteFunc stubLib fsGarbage (t2001 + 1) =
      scanEntries stubLib (t2001 + 1) (Split (journalOf []) '\n') fsGarbage :=
  ⟨by decide, by decide,
    (logDeleteFunc_malformed_line stubLib (t2001 + 1) fsGarbage [] [recordAb] lineGarbage
      (by decide) (by decide) (by decide) (by decide) (by decide)).1 (by decide)⟩

/-- C4 as stated fails: at the boundary instant `now = expiresAt` the blob of a
well-formed record exists and the tick hands nothing to `os.Remove`. -/
theorem logDeleteFunc_boundary_not_deleted :
    parseRecord stubLib recordAb = some (t2001, 300000000000, blobAb) ∧
    fsAb.files lsfPath = some (journalOf [recordAb]) ∧
    fsAb.files blobAb = some "x".toList ∧
    (logDeleteFunc stubLib fsAb t2001).removes = [] ∧
    (logDeleteFunc stubLib fsAb t2001).fs.files blobAb = some "x".toList := by
  decide

theorem logDeleteFunc_attempts_iff_strictly_expired_witness :
    (fsAb.files blobAb).isSome = true ∧
    (blobAb ∈ (logDeleteFunc stubLib fsAb (t2001 + 1)).removes ↔
      ∃ e ∈ [recordAb], ∃ expiresAt ttl,
        parseRecord stubLib e = some (expiresAt, ttl, blobAb) ∧ expiresAt < t2001 + 1) :=
  ⟨by decide,
    logDeleteFunc_attempts_iff_strictly_expired stubLib (t2001 + 1) fsAb [recordAb]
      (by decide) (by decide) blobAb (by decide)⟩

theorem upload_collision_rejected_witness :
    fsCollision.files (Join newFileUploaderSvc.p
      (checksumOf stubLib newFileUploaderSvc envZero.hashTime fileAbc.content))
        = some "old".toList ∧
    (upload stubLib newFileUploaderSvc fsCollision (requestOf [] [] (some fileAbc))
      envZero).resp.status = 400 :=
  ⟨by decide,
    (upload_collision_rejected stubLib newFileUploaderSvc fsCollision
      (requestOf [] [] (some fileAbc)) envZero fileAbc "old".toList (by decide) (by decide)
      (by decide)).2.2.1⟩

theorem hashFile_identifier_of_history_witness :
    (hashFile stubLib
      (hashFile stubLib newFileUploaderSvc (fsOf []) envZero.ns t2001 fileAbc.content).f
      (hashFile stubLib newFileUploaderSvc (fsOf []) envZero.ns t2001 fileAbc.content).fs
      envZero.ns t2001 fileAbc.content).result
        = .ok "4000000000000000000000000000000000000000000000000000000000000000".toList ∧
    "4000000000000000000000000000000000000000000000000000000000000000".toList =
      EncodeToString (stubLib.highwayhash
        ((hashFile stubLib newFileUploaderSvc (fsOf []) envZero.ns t2001
          fileAbc.content).f.h.written ++ stubLib.timeString t2001 ++ fileAbc.content)) :=
  ⟨by decide,
    (hashFile_identifier_of_history stubLib
      (hashFile stubLib newFileUploaderSvc (fsOf []) envZero.ns t2001 fileAbc.content).f
      (hashFile stubLib newFileUploaderSvc (fsOf []) envZero.ns t2001 fileAbc.content).fs
      envZero.ns t2001 fileAbc.content _ (by decide)).1⟩

/-- The same mixer and the same bytes, uploaded twice to one service: the second call
returns another identifier than the first. -/
theorem hashFile_same_upload_other_identifier :
    (hashFile stubLib newFileUploaderSvc (fsOf []) envZero.ns t2001 fileAbc.content).result
      = .ok idAbc ∧
    (hashFile stubLib
      (hashFile stubLib newFileUploaderSvc (fsOf []) envZero.ns t2001 fileAbc.content).f
      (hashFile stubLib newFileUploaderSvc (fsOf []) envZero.ns t2001 fileAbc.content).fs
      envZero.ns t2001 fileAbc.content).result
        = .ok "4000000000000000000000000000000000000000000000000000000000000000".toList := by
  decide

/-- C8 as stated fails: the storage path holds a comma, and the appended line has four
comma-separated fields. -/
theorem WriteLogEntry_comma_in_path :
    (WriteLogEntry stubLib (fsOf []) t2001 300000000000 "/data,1".toList "ab".toList).2
      = none ∧
    (WriteLogEntry stubLib (fsOf []) t2001 300000000000 "/data,1".toList
      "ab".toList).1.files lsfPath
      = some "Mon Jan  1 00:05:00 UTC 2001,5m0s,/data,1/ab\n".toList ∧
    Split "Mon Jan  1 00:05:00 UTC 2001,5m0s,/data,1/ab".toList ',' =
      ["Mon Jan  1 00:05:00 UTC 2001".toList, "5m0s".toList, "/data".toList,
        "1/ab".toList] := by
  decide

theorem WriteLogEntry_appends_one_record_witness :
    ',' ∉ Join defaultStoragePath idAbc ∧ '\n' ∉ Join defaultStoragePath idAbc ∧
    (WriteLogEntry stubLib fsAb t2001 300000000000 defaultStoragePath idAbc).1.files lsfPath =
      some ((fsAb.files lsfPath).getD [] ++
        ((stubLib.formatUnixDate (t2001 + 300000000000) ++
          ',' :: (stubLib.durationString 300000000000 ++
            ',' :: Join defaultStoragePath idAbc)) ++ ['\n'])) :=
  ⟨by decide, by decide,
    (WriteLogEntry_appends_one_record stubLib fsAb t2001 300000000000 defaultStoragePath
      idAbc (by decide) (by decide) (by decide)).1⟩

/-- Upload A carries `x-ttl: 1s`, upload B no `x-ttl`; they overlap on a fresh service with
an empty filesystem. Both are answered 200, and the record journaled for A's blob holds
the ttl `5m0s` and the expiration `00:05:00`, not `1s` and `00:00:01`. -/
theorem overlappedUploads_journal_other_ttl_witness :
    (uploadStore stubLib newFileUploaderSvc (fsOf []) requestA envZero).2 = some idAbc ∧
    effectiveTTL stubLib (requestA.Header defaultTTLHeader) = 1000000000 ∧
    effectiveTTL stubLib (requestB.Header defaultTTLHeader) = 300000000000 ∧
    (overlappedUploads stubLib newFileUploaderSvc (fsOf []) requestA envZero requestB
      envOne).fs.files lsfPath =
      some (((fsOf []).files lsfPath).getD [] ++
        (journalRecord stubLib envZero.logTime
          (effectiveTTL stubLib (requestB.Header defaultTTLHeader))
          (Join defaultStoragePath idAbc) ++ ['\n']) ++
        (journalRecord stubLib envOne.logTime
          (effectiveTTL stubLib (requestB.Header defaultTTLHeader))
          (Join defaultStoragePath idAbc2) ++ ['\n'])) :=
  ⟨by decide, by decide, by decide,
    (overlappedUploads_journal_other_ttl stubLib newFileUploaderSvc (fsOf []) requestA envZero
      requestB envOne idAbc idAbc2 rfl (by decide) (by decide) (Or.inr rfl)).2.2⟩

set_option maxRecDepth 8000 in
/-- The same two uploads, evaluated: overlapped, A's blob is journaled with `5m0s`; served
alone, A's blob is journaled with `1s`. -/
theorem overlappedUploads_journal_text :
    (overlappedUploads stubLib newFileUploaderSvc (fsOf []) requestA envZero requestB
      envOne).fs.files lsfPath =
      some ("Mon Jan  1 00:05:00 UTC 2001,5m0s,/tmp/vanishling/uploads/".toList ++ idAbc ++
        "\nMon Jan  1 00:05:00 UTC 2001,5m0s,/tmp/vanishling/uploads/".toList ++ idAbc2 ++
        "\n".toList) ∧
    (upload stubLib newFileUploaderSvc (fsOf []) requestA envZero).fs.files lsfPath =
      some ("Mon Jan  1 00:00:01 UTC 2001,1s,/tmp/vanishling/uploads/".toList ++ idAbc ++
        "\n".toList) := by
  decide

theorem download_path_inside_storage_witness :
    (requestOf "abc".toList [] none).Header defaultFileIdHeader ≠ [] ∧
    (download newFileUploaderSvc (fsOf []) (requestOf "abc".toList [] none)).reads =
      [Join defaultStoragePath ((requestOf "abc".toList [] none).Header defaultFileIdHeader)] :=
  ⟨by decide,
    (download_path_inside_storage newFileUploaderSvc (fsOf []) (requestOf "abc".toList [] none)
      rfl (by decide) (by decide) (by decide)).1⟩

end Vanishling
